import Mathlib

/-!
Verification development for the Credit-Card-Analyzer repository.

The client-side transaction-analytics pipeline is shallowly embedded here:
JS `number` amounts become exact rationals `ℚ`, ISO `YYYY-MM-DD` date strings
are parsed into a civil-date structure, and every aggregation function from
the React components is reproduced as an executable Lean definition.
-/

namespace CardAnalyzer

/-- Transaction record (src/frontend/types.ts).  JS `number` is modelled as
`ℚ`; the sign convention (positive = spend) is data, not type, as in the
source. -/
structure Transaction where
  id : String
  date : String
  merchant : String
  amount : ℚ
  category : String
  isRecurring : Bool := false
deriving Repr, DecidableEq

/-! ### JS `Map` iteration order

JS `Map` iterates keys in first-insertion order.  `firstKeys` extracts the
keys of a grouping pass in that order. -/

def firstKeys {α : Type} [DecidableEq α] : List α → List α
  | [] => []
  | a :: as => a :: firstKeys (as.filter (fun b => b ≠ a))
termination_by l => l.length
decreasing_by
  simp only [List.length_cons]
  exact Nat.lt_succ_of_le (List.length_filter_le _ _)

theorem mem_firstKeys {α : Type} [DecidableEq α] (a : α) :
    ∀ l : List α, a ∈ firstKeys l ↔ a ∈ l
  | [] => by simp [firstKeys]
  | b :: bs => by
    rw [firstKeys]
    by_cases hab : a = b
    · subst hab; simp
    · simp only [List.mem_cons, hab, false_or]
      rw [mem_firstKeys a (bs.filter (fun c => c ≠ b))]
      simp [hab]
termination_by l => l.length
decreasing_by
  simp only [List.length_cons]
  exact Nat.lt_succ_of_le (List.length_filter_le _ _)

theorem nodup_firstKeys {α : Type} [DecidableEq α] :
    ∀ l : List α, (firstKeys l).Nodup
  | [] => by simp [firstKeys]
  | b :: bs => by
    rw [firstKeys]
    refine List.nodup_cons.mpr ⟨?_, nodup_firstKeys (bs.filter (fun c => c ≠ b))⟩
    intro hmem
    rcases (mem_firstKeys b _).mp hmem with h
    rcases List.mem_filter.mp h with ⟨-, hne⟩
    simp at hne
termination_by l => l.length
decreasing_by
  simp only [List.length_cons]
  exact Nat.lt_succ_of_le (List.length_filter_le _ _)

/-! ### Decimal digits -/

def digitChar (n : ℕ) : Char := Char.ofNat (48 + n)

def digitVal (c : Char) : ℕ := c.toNat - 48

def natDigits (n : ℕ) : List Char :=
  if _h : n < 10 then [digitChar n]
  else natDigits (n / 10) ++ [digitChar (n % 10)]
decreasing_by
  exact Nat.div_lt_self (by omega) (by omega)

def digitsToNat (cs : List Char) : ℕ :=
  cs.foldl (fun a c => a * 10 + digitVal c) 0

theorem digitVal_digitChar {n : ℕ} (h : n < 10) : digitVal (digitChar n) = n := by
  interval_cases n <;> decide

theorem digitChar_isDigit {n : ℕ} (h : n < 10) : (digitChar n).isDigit = true := by
  interval_cases n <;> decide

theorem natDigits_ne_nil (n : ℕ) : natDigits n ≠ [] := by
  rw [natDigits]
  split <;> simp

theorem natDigits_all_digit : ∀ n : ℕ, ∀ c ∈ natDigits n, c.isDigit = true := by
  intro n
  induction n using Nat.strong_induction_on with
  | _ n ih =>
    intro c hc
    rw [natDigits] at hc
    split at hc
    · simp only [List.mem_singleton] at hc
      subst hc; exact digitChar_isDigit (by omega)
    · rcases List.mem_append.mp hc with h | h
      · exact ih (n / 10) (Nat.div_lt_self (by omega) (by omega)) c h
      · simp only [List.mem_singleton] at h
        subst h; exact digitChar_isDigit (Nat.mod_lt _ (by omega))

theorem digitsToNat_append_singleton (l : List Char) (c : Char) :
    digitsToNat (l ++ [c]) = digitsToNat l * 10 + digitVal c := by
  simp [digitsToNat, List.foldl_append]

theorem digitsToNat_natDigits : ∀ n : ℕ, digitsToNat (natDigits n) = n := by
  intro n
  induction n using Nat.strong_induction_on with
  | _ n ih =>
    rw [natDigits]
    split
    · next h =>
      simp [digitsToNat, digitVal_digitChar h]
    · next h =>
      rw [digitsToNat_append_singleton,
        ih (n / 10) (Nat.div_lt_self (by omega) (by omega)),
        digitVal_digitChar (Nat.mod_lt _ (by omega))]
      omega

/-- Fractional part of a `toFixed(2)` rendering: always exactly two digits. -/
def fracDigits2 (m : ℕ) : List Char :=
  if m < 10 then ['0', digitChar m] else natDigits m

theorem natDigits_lt_100_length {m : ℕ} (h10 : 10 ≤ m) (h : m < 100) :
    natDigits m = [digitChar (m / 10), digitChar (m % 10)] := by
  rw [natDigits]
  have : ¬ m < 10 := by omega
  simp only [this, if_neg, dif_neg, not_false_iff]
  rw [natDigits]
  have : m / 10 < 10 := by omega
  simp [this]

theorem fracDigits2_length {m : ℕ} (h : m < 100) : (fracDigits2 m).length = 2 := by
  unfold fracDigits2
  split
  · simp
  · next h10 => rw [natDigits_lt_100_length (by omega) h]; simp

theorem digitsToNat_fracDigits2 {m : ℕ} (_h : m < 100) :
    digitsToNat (fracDigits2 m) = m := by
  unfold fracDigits2
  split
  · next hm =>
    have h0 : digitVal '0' = 0 := by decide
    simp [digitsToNat, digitVal_digitChar hm, h0]
  · exact digitsToNat_natDigits m

theorem fracDigits2_all_digit : ∀ m : ℕ, ∀ c ∈ fracDigits2 m, c.isDigit = true := by
  intro m c hc
  unfold fracDigits2 at hc
  split at hc
  · next hm =>
    simp only [List.mem_cons, List.not_mem_nil, or_false] at hc
    rcases hc with rfl | rfl
    · decide
    · exact digitChar_isDigit (by omega)
  · exact natDigits_all_digit m c hc

/-! ### JS `Number.prototype.toFixed(2)`

ECMA-262: for nonnegative `x`, pick the integer `n` minimising `|n/100 - x|`
(larger `n` on ties) and print `n` with two decimals; a negative input is
printed as `-` followed by the rendering of its negation. -/

def fix2cents (q : ℚ) : ℤ :=
  if q < 0 then -⌊|q| * 100 + (1 : ℚ) / 2⌋ else ⌊|q| * 100 + (1 : ℚ) / 2⌋

/-- The value denoted by `toFixed(2)` output: the input rounded to cents. -/
def round2 (q : ℚ) : ℚ := (fix2cents q : ℚ) / 100

def toFixed2 (q : ℚ) : String :=
  let n := (⌊|q| * 100 + (1 : ℚ) / 2⌋).toNat
  ⟨(if q < 0 then ['-'] else []) ++ natDigits (n / 100) ++ '.' :: fracDigits2 (n % 100)⟩

/-- Unsigned `ddd.dd` decimal parser (spec side of the round-trip). -/
def parseFix2Pos (cs : List Char) : Option ℚ :=
  let ip := cs.takeWhile (fun c => c != '.')
  match cs.dropWhile (fun c => c != '.') with
  | '.' :: fp =>
    if ip ≠ [] ∧ ip.all Char.isDigit ∧ fp.length = 2 ∧ fp.all Char.isDigit then
      some (((digitsToNat ip * 100 + digitsToNat fp : ℕ) : ℚ) / 100)
    else none
  | _ => none

def parseFix2 : List Char → Option ℚ
  | [] => none
  | c :: rest =>
    if c = '-' then (parseFix2Pos rest).map (fun x => -x)
    else parseFix2Pos (c :: rest)

theorem floor_cents_nonneg (q : ℚ) : 0 ≤ ⌊|q| * 100 + (1 : ℚ) / 2⌋ := by
  have h : (0 : ℚ) ≤ |q| * 100 + (1 : ℚ) / 2 := by positivity
  exact Int.floor_nonneg.mpr h

theorem ne_dot_of_isDigit {c : Char} (h : c.isDigit = true) : (c != '.') = true := by
  rcases eq_or_ne c '.' with rfl | hne
  · exact absurd h (by decide)
  · simp [bne, hne]

theorem takeWhile_all_append {p : Char → Bool} {l : List Char} {x : Char} (r : List Char)
    (h : ∀ c ∈ l, p c = true) (hx : p x = false) :
    (l ++ x :: r).takeWhile p = l ∧ (l ++ x :: r).dropWhile p = x :: r := by
  induction l with
  | nil => simp [List.takeWhile, List.dropWhile, hx]
  | cons c cs ih =>
    have hc : p c = true := h c (by simp)
    have ih2 := ih (fun d hd => h d (by simp [hd]))
    simp [List.takeWhile, List.dropWhile, hc, ih2.1, ih2.2]

theorem parseFix2Pos_digits (a b : ℕ) (hb : b < 100) :
    parseFix2Pos (natDigits a ++ '.' :: fracDigits2 b) =
      some (((a * 100 + b : ℕ) : ℚ) / 100) := by
  have hall : ∀ c ∈ natDigits a, (c != '.') = true := fun c hc =>
    ne_dot_of_isDigit (natDigits_all_digit a c hc)
  have hdot : (('.' : Char) != '.') = false := by decide
  obtain ⟨htake, hdrop⟩ := takeWhile_all_append (fracDigits2 b) hall hdot
  unfold parseFix2Pos
  rw [hdrop]
  simp only [htake]
  rw [if_pos]
  · rw [digitsToNat_natDigits, digitsToNat_fracDigits2 hb]
  · refine ⟨natDigits_ne_nil a, ?_, fracDigits2_length hb, ?_⟩
    · exact List.all_eq_true.mpr (natDigits_all_digit a)
    · exact List.all_eq_true.mpr (fracDigits2_all_digit b)

theorem parseFix2_toFixed2 (q : ℚ) : parseFix2 (toFixed2 q).data = some (round2 q) := by
  have hnn := floor_cents_nonneg q
  set n : ℕ := (⌊|q| * 100 + (1 : ℚ) / 2⌋).toNat with hn
  have hcast : ((n : ℤ)) = ⌊|q| * 100 + (1 : ℚ) / 2⌋ := Int.toNat_of_nonneg hnn
  have hsplit : n / 100 * 100 + n % 100 = n := by omega
  have hb : n % 100 < 100 := Nat.mod_lt _ (by omega)
  have hpos : parseFix2Pos (natDigits (n / 100) ++ '.' :: fracDigits2 (n % 100)) =
      some ((n : ℚ) / 100) := by
    rw [parseFix2Pos_digits _ _ hb, hsplit]
  by_cases hq : q < 0
  · have hdata : (toFixed2 q).data =
        '-' :: (natDigits (n / 100) ++ '.' :: fracDigits2 (n % 100)) := by
      simp [toFixed2, hq, hn]
    rw [hdata]
    simp only [parseFix2, if_pos rfl, hpos]
    unfold round2 fix2cents
    rw [if_pos hq, ← hcast]
    push_cast
    simp [neg_div]
  · have hdata : (toFixed2 q).data =
        natDigits (n / 100) ++ '.' :: fracDigits2 (n % 100) := by
      simp [toFixed2, hq, hn]
    obtain ⟨c, cs, hcons⟩ : ∃ c cs, natDigits (n / 100) = c :: cs := by
      cases h : natDigits (n / 100) with
      | nil => exact absurd h (natDigits_ne_nil _)
      | cons c cs => exact ⟨c, cs, rfl⟩
    have hcdigit : c.isDigit = true :=
      natDigits_all_digit (n / 100) c (by rw [hcons]; simp)
    have hcne : c ≠ '-' := by
      rintro rfl; exact absurd hcdigit (by decide)
    rw [hdata, hcons]
    simp only [List.cons_append, parseFix2, if_neg hcne]
    rw [← List.cons_append, ← hcons, hpos]
    unfold round2 fix2cents
    rw [if_neg hq, ← hcast]
    push_cast
    try ring_nf

theorem digit_ne_comma_quote {c : Char} (h : c.isDigit = true) : c ≠ ',' ∧ c ≠ '"' := by
  constructor <;> rintro rfl <;> exact absurd h (by decide)

theorem toFixed2_chars (q : ℚ) : ∀ c ∈ (toFixed2 q).data, c ≠ ',' ∧ c ≠ '"' := by
  intro c hc
  simp only [toFixed2] at hc
  rcases List.mem_append.mp hc with h | h
  · rcases List.mem_append.mp h with h1 | h1
    · split at h1
      · simp only [List.mem_singleton] at h1; subst h1; exact ⟨by decide, by decide⟩
      · cases h1
    · exact digit_ne_comma_quote (natDigits_all_digit _ c h1)
  · rcases List.mem_cons.mp h with h1 | h1
    · subst h1; exact ⟨by decide, by decide⟩
    · exact digit_ne_comma_quote (fracDigits2_all_digit _ c h1)

theorem toFixed2_ne_nil (q : ℚ) : (toFixed2 q).data ≠ [] := by
  simp only [toFixed2]
  intro h
  rcases List.append_eq_nil.mp h with ⟨h1, h2⟩
  rcases List.append_eq_nil.mp h1 with ⟨-, h3⟩
  exact natDigits_ne_nil _ h3

/-! ### Civil calendar (JS `Date` semantics for ISO `YYYY-MM-DD` strings) -/

structure CivilDate where
  y : ℕ
  m : ℕ
  d : ℕ
deriving Repr, DecidableEq

def isLeap (y : ℕ) : Bool := (y % 4 == 0 && y % 100 != 0) || y % 400 == 0

def daysInMonth (y m : ℕ) : ℕ :=
  if m = 2 then (if isLeap y then 29 else 28)
  else if m = 4 ∨ m = 6 ∨ m = 9 ∨ m = 11 then 30
  else 31

/-- Days since the Unix epoch of a civil date (Howard Hinnant's algorithm,
shifted by 400 years to stay in `ℕ` internally).  `new Date("YYYY-MM-DD")`
denotes midnight UTC of this day, so `getTime()` is this value times
86 400 000. -/
def daysFromCivil (c : CivilDate) : ℤ :=
  let y1 := c.y + 400
  let y2 := if c.m ≤ 2 then y1 - 1 else y1
  let era := y2 / 400
  let yoe := y2 % 400
  let mp := (c.m + 9) % 12
  let doy := (153 * mp + 2) / 5 + c.d - 1
  let doe := yoe * 365 + yoe / 4 - yoe / 100 + doy
  (era * 146097 + doe : ℤ) - (146097 + 719468)

/-- Strict ISO `YYYY-MM-DD` parsing, as performed by `new Date(string)` for
date-only forms; out-of-range components give an Invalid Date (`none`). -/
def parseIsoDate (s : String) : Option CivilDate :=
  match s.data with
  | [y1, y2, y3, y4, '-', m1, m2, '-', d1, d2] =>
    if (y1.isDigit && y2.isDigit && y3.isDigit && y4.isDigit &&
        m1.isDigit && m2.isDigit && d1.isDigit && d2.isDigit) then
      let y := digitsToNat [y1, y2, y3, y4]
      let m := digitsToNat [m1, m2]
      let d := digitsToNat [d1, d2]
      if 1 ≤ m ∧ m ≤ 12 ∧ 1 ≤ d ∧ d ≤ daysInMonth y m then some ⟨y, m, d⟩ else none
    else none
  | _ => none

/-- `getTime()` of `new Date(isoString)` in whole days (`none` = NaN). -/
def jsEpochDays (s : String) : Option ℤ := (parseIsoDate s).map daysFromCivil

def monthSucc (y m : ℕ) : ℕ × ℕ := if 12 ≤ m then (y + 1, 1) else (y, m + 1)

/-- Normalise a `(y, m, d)` triple whose day may overflow the month (by at
most three days, as happens under JS `setMonth`/`setFullYear`/`setDate`):
excess days roll into the following month. -/
def jsDateNorm (y m d : ℕ) : CivilDate :=
  if d ≤ daysInMonth y m then ⟨y, m, d⟩
  else
    let p := monthSucc y m
    ⟨p.1, p.2, d - daysInMonth y m⟩

/-- JS `date.setMonth(date.getMonth() + k)`: the month index advances by `k`
and the (unchanged) day-of-month is normalised forward on overflow. -/
def jsAddMonths (c : CivilDate) (k : ℕ) : CivilDate :=
  let m0 := c.m - 1 + k
  jsDateNorm (c.y + m0 / 12) (m0 % 12 + 1) c.d

/-- JS `date.setFullYear(date.getFullYear() + k)`. -/
def jsAddYears (c : CivilDate) (k : ℕ) : CivilDate :=
  jsDateNorm (c.y + k) c.m c.d

/-- JS `date.setDate(date.getDate() + k)` for small `k` (≤ 28): at most one
month roll is needed. -/
def jsAddDays (c : CivilDate) (k : ℕ) : CivilDate :=
  jsDateNorm c.y c.m (c.d + k)

/-- `getTime()` comparison of two (valid) dates. -/
def cdLt (a b : CivilDate) : Bool := daysFromCivil a < daysFromCivil b

/-- Two-digit zero-padded decimal (for month/day fields, always < 100). -/
def pad2 (n : ℕ) : List Char := [digitChar (n / 10 % 10), digitChar (n % 10)]

/-- Four-digit zero-padded decimal (for the year field, always < 10000). -/
def pad4 (n : ℕ) : List Char :=
  [digitChar (n / 1000 % 10), digitChar (n / 100 % 10),
   digitChar (n / 10 % 10), digitChar (n % 10)]

/-- `toISOString().split('T')[0]` of a civil date. -/
def CivilDate.toIso (c : CivilDate) : String :=
  ⟨pad4 c.y ++ '-' :: pad2 c.m ++ '-' :: pad2 c.d⟩

theorem daysFromCivil_epoch : daysFromCivil ⟨1970, 1, 1⟩ = 0 := by decide

theorem daysFromCivil_sample : daysFromCivil ⟨2026, 1, 31⟩ = 20484 := by decide

theorem daysFromCivil_leap_sample :
    daysFromCivil ⟨2024, 3, 1⟩ - daysFromCivil ⟨2024, 2, 28⟩ = 2 := by decide

/-! ### JS string helpers -/

/-- Boolean coercion of a JS string attribute: `undefined`, `null` and the
empty string are falsy. -/
def jsTruthy : Option String → Bool
  | none => false
  | some s => s ≠ ""

def listIsPref : List Char → List Char → Bool
  | [], _ => true
  | _ :: _, [] => false
  | a :: as, b :: bs => a == b && listIsPref as bs

def subMatch (needle : List Char) : List Char → Bool
  | [] => listIsPref needle []
  | c :: rest => listIsPref needle (c :: rest) || subMatch needle rest

/-- JS `s.toLowerCase()` (ASCII model), structurally on the char list. -/
def strToLower (s : String) : String := ⟨s.data.map Char.toLower⟩

def isWsp (c : Char) : Bool := c = ' ' || c = '\t' || c = '\n' || c = '\r'

/-- JS `s.trim()` (ASCII whitespace model). -/
def strTrim (s : String) : String :=
  ⟨((s.data.dropWhile isWsp).reverse.dropWhile isWsp).reverse⟩

/-- JS `hay.includes(pat)`. -/
def strIncludes (hay pat : String) : Bool := subMatch pat.data hay.data

/-- `s.replace(/"/g, '""')`: double every double quote. -/
def escQuotes : List Char → List Char
  | [] => []
  | c :: cs => if c = '"' then '"' :: '"' :: escQuotes cs else c :: escQuotes cs

/-- JS `str.charAt(0).toUpperCase() + str.slice(1)`. -/
def capFirst (s : String) : String :=
  match s.data with
  | [] => ""
  | c :: cs => ⟨c.toUpper :: cs⟩

/-! ### CSV export (src/unnamed/part_007, `exportToCSV`) -/

/-- One data row of the generated CSV: `"date","merchant",amount,"category",Yes|No`
with embedded double quotes doubled (the `.replace(/"/g, '""')` calls). -/
def csvRow (t : Transaction) : String :=
  ⟨'"' :: escQuotes t.date.data ++ '"' :: ',' ::
   '"' :: escQuotes t.merchant.data ++ '"' :: ',' ::
   (toFixed2 t.amount).data ++ ',' ::
   '"' :: escQuotes t.category.data ++ '"' :: ',' ::
   (if t.isRecurring then "Yes" else "No").data⟩

def csvHeader : String := "Date,Merchant,Amount,Category,Is Recurring"

/-- `[headers.join(','), ...rows.map(r => r.join(','))].join('\n')`. -/
def csvContent (data : List Transaction) : String :=
  String.intercalate "\n" (csvHeader :: data.map csvRow)

/-! A record parser for standard CSV rules, modelled from the spec:
comma-separated fields, double-quoted fields with inner quotes doubled.
This is the spec side of the round-trip claim, not code from the repo. -/

inductive CsvMode
  | start
  | unq
  | inq
  | postq
deriving Repr, DecidableEq

def csvSplitAux : List Char → CsvMode → List Char → List (List Char) →
    Option (List (List Char))
  | [], mode, field, acc =>
    if mode = CsvMode.inq then none else some ((field.reverse :: acc).reverse)
  | c :: rest, CsvMode.start, field, acc =>
    if c = ',' then csvSplitAux rest CsvMode.start [] (field.reverse :: acc)
    else if c = '"' then csvSplitAux rest CsvMode.inq [] acc
    else csvSplitAux rest CsvMode.unq [c] acc
  | c :: rest, CsvMode.unq, field, acc =>
    if c = ',' then csvSplitAux rest CsvMode.start [] (field.reverse :: acc)
    else if c = '"' then none
    else csvSplitAux rest CsvMode.unq (c :: field) acc
  | c :: rest, CsvMode.inq, field, acc =>
    if c = '"' then csvSplitAux rest CsvMode.postq field acc
    else csvSplitAux rest CsvMode.inq (c :: field) acc
  | c :: rest, CsvMode.postq, field, acc =>
    if c = ',' then csvSplitAux rest CsvMode.start [] (field.reverse :: acc)
    else if c = '"' then csvSplitAux rest CsvMode.inq ('"' :: field) acc
    else none

/-- Parse one CSV record into its list of field strings. -/
def csvParseRecord (s : String) : Option (List String) :=
  (csvSplitAux s.data CsvMode.start [] []).map (List.map fun l => (⟨l⟩ : String))

theorem csvStep_start_quote (rest field : List Char) (acc : List (List Char)) :
    csvSplitAux ('"' :: rest) CsvMode.start field acc =
      csvSplitAux rest CsvMode.inq [] acc := by
  simp [csvSplitAux]

theorem csvStep_start_other {c : Char} (h1 : c ≠ ',') (h2 : c ≠ '"')
    (rest field : List Char) (acc : List (List Char)) :
    csvSplitAux (c :: rest) CsvMode.start field acc =
      csvSplitAux rest CsvMode.unq [c] acc := by
  simp [csvSplitAux, h1, h2]

theorem csvStep_unq_comma (rest field : List Char) (acc : List (List Char)) :
    csvSplitAux (',' :: rest) CsvMode.unq field acc =
      csvSplitAux rest CsvMode.start [] (field.reverse :: acc) := by
  simp [csvSplitAux]

theorem csvStep_unq_other {c : Char} (h1 : c ≠ ',') (h2 : c ≠ '"')
    (rest field : List Char) (acc : List (List Char)) :
    csvSplitAux (c :: rest) CsvMode.unq field acc =
      csvSplitAux rest CsvMode.unq (c :: field) acc := by
  simp [csvSplitAux, h1, h2]

theorem csvStep_inq_quote (rest field : List Char) (acc : List (List Char)) :
    csvSplitAux ('"' :: rest) CsvMode.inq field acc =
      csvSplitAux rest CsvMode.postq field acc := by
  simp [csvSplitAux]

theorem csvStep_inq_other {c : Char} (h : c ≠ '"')
    (rest field : List Char) (acc : List (List Char)) :
    csvSplitAux (c :: rest) CsvMode.inq field acc =
      csvSplitAux rest CsvMode.inq (c :: field) acc := by
  simp [csvSplitAux, h]

theorem csvStep_postq_comma (rest field : List Char) (acc : List (List Char)) :
    csvSplitAux (',' :: rest) CsvMode.postq field acc =
      csvSplitAux rest CsvMode.start [] (field.reverse :: acc) := by
  simp [csvSplitAux]

theorem csvStep_postq_quote (rest field : List Char) (acc : List (List Char)) :
    csvSplitAux ('"' :: rest) CsvMode.postq field acc =
      csvSplitAux rest CsvMode.inq ('"' :: field) acc := by
  simp [csvSplitAux]

theorem csvStep_nil_unq (field : List Char) (acc : List (List Char)) :
    csvSplitAux [] CsvMode.unq field acc = some ((field.reverse :: acc).reverse) := by
  simp [csvSplitAux]

theorem csvStep_nil_postq (field : List Char) (acc : List (List Char)) :
    csvSplitAux [] CsvMode.postq field acc = some ((field.reverse :: acc).reverse) := by
  simp [csvSplitAux]

theorem csvSplitAux_escQuotes (s : List Char) :
    ∀ (rest field : List Char) (acc : List (List Char)),
      csvSplitAux (escQuotes s ++ '"' :: rest) CsvMode.inq field acc =
        csvSplitAux rest CsvMode.postq (s.reverse ++ field) acc := by
  induction s with
  | nil =>
    intro rest field acc
    rw [show escQuotes [] ++ '"' :: rest = '"' :: rest from rfl, csvStep_inq_quote]
    simp
  | cons c cs ih =>
    intro rest field acc
    by_cases hc : c = '"'
    · subst hc
      rw [show escQuotes ('"' :: cs) ++ '"' :: rest =
            '"' :: '"' :: (escQuotes cs ++ '"' :: rest) from by simp [escQuotes],
          csvStep_inq_quote, csvStep_postq_quote, ih]
      simp
    · rw [show escQuotes (c :: cs) ++ '"' :: rest =
            c :: (escQuotes cs ++ '"' :: rest) from by simp [escQuotes, hc],
          csvStep_inq_other hc, ih]
      simp

theorem csvSplitAux_unq :
    ∀ (l : List Char), (∀ c ∈ l, c ≠ ',' ∧ c ≠ '"') →
      ∀ (rest field : List Char) (acc : List (List Char)),
        csvSplitAux (l ++ rest) CsvMode.unq field acc =
          csvSplitAux rest CsvMode.unq (l.reverse ++ field) acc := by
  intro l
  induction l with
  | nil => intro _ rest field acc; simp
  | cons c cs ih =>
    intro hl rest field acc
    obtain ⟨hc1, hc2⟩ := hl c (by simp)
    rw [show (c :: cs) ++ rest = c :: (cs ++ rest) from rfl,
        csvStep_unq_other hc1 hc2, ih (fun d hd => hl d (by simp [hd]))]
    simp

/-- Entering an unquoted field from field-start position. -/
theorem csvSplitAux_start_unq (c : Char) (cs : List Char)
    (hl : ∀ x ∈ c :: cs, x ≠ ',' ∧ x ≠ '"') (rest : List Char) (acc : List (List Char)) :
    csvSplitAux ((c :: cs) ++ rest) CsvMode.start [] acc =
      csvSplitAux rest CsvMode.unq ((c :: cs).reverse) acc := by
  obtain ⟨hc1, hc2⟩ := hl c (by simp)
  rw [show (c :: cs) ++ rest = c :: (cs ++ rest) from rfl,
      csvStep_start_other hc1 hc2,
      csvSplitAux_unq cs (fun d hd => hl d (by simp [hd]))]
  simp

/-- Parsing one generated CSV row under standard CSV rules recovers the five
field strings exactly. -/
theorem csvParseRecord_csvRow (t : Transaction) :
    csvParseRecord (csvRow t) =
      some [t.date, t.merchant, toFixed2 t.amount, t.category,
            if t.isRecurring then "Yes" else "No"] := by
  obtain ⟨c, cs, hcons⟩ : ∃ c cs, (toFixed2 t.amount).data = c :: cs := by
    cases h : (toFixed2 t.amount).data with
    | nil => exact absurd h (toFixed2_ne_nil _)
    | cons c cs => exact ⟨c, cs, rfl⟩
  have hchars : ∀ x ∈ c :: cs, x ≠ ',' ∧ x ≠ '"' := by
    rw [← hcons]; exact toFixed2_chars t.amount
  have hdata : (csvRow t).data =
      '"' :: (escQuotes t.date.data ++ '"' ::
      (',' :: ('"' :: (escQuotes t.merchant.data ++ '"' ::
      (',' :: ((c :: cs) ++
      (',' :: ('"' :: (escQuotes t.category.data ++ '"' ::
      (',' :: (if t.isRecurring then "Yes" else "No").data)))))))))) := by
    show ('"' :: escQuotes t.date.data ++ '"' :: ',' ::
      '"' :: escQuotes t.merchant.data ++ '"' :: ',' ::
      (toFixed2 t.amount).data ++ ',' ::
      '"' :: escQuotes t.category.data ++ '"' :: ',' ::
      (if t.isRecurring then "Yes" else "No").data) = _
    rw [hcons]
    simp
  have hsplit : csvSplitAux (csvRow t).data CsvMode.start [] [] =
      some [t.date.data, t.merchant.data, (toFixed2 t.amount).data,
            t.category.data, (if t.isRecurring then "Yes" else "No").data] := by
    rw [hdata, csvStep_start_quote, csvSplitAux_escQuotes, csvStep_postq_comma,
        csvStep_start_quote, csvSplitAux_escQuotes, csvStep_postq_comma,
        csvSplitAux_start_unq c cs hchars, csvStep_unq_comma,
        csvStep_start_quote, csvSplitAux_escQuotes, csvStep_postq_comma]
    by_cases hrec : t.isRecurring
    · rw [show (if t.isRecurring then "Yes" else "No").data =
            ('Y' :: ['e', 's']) ++ ([] : List Char) from by simp [hrec],
          csvSplitAux_start_unq 'Y' ['e', 's'] (by decide), csvStep_nil_unq]
      rw [hcons]
      simp [hrec]
    · rw [show (if t.isRecurring then "Yes" else "No").data =
            ('N' :: ['o']) ++ ([] : List Char) from by simp [hrec],
          csvSplitAux_start_unq 'N' ['o'] (by decide), csvStep_nil_unq]
      rw [hcons]
      simp [hrec]
  unfold csvParseRecord
  rw [hsplit]
  rfl

/-! ### Shared analytics helpers -/

/-- Code-unit lexicographic comparison, the order JS `<`, default `.sort()`
and `localeCompare` impose on the ASCII strings used here. -/
def lexLe : List Char → List Char → Bool
  | [], _ => true
  | _ :: _, [] => false
  | a :: as, b :: bs =>
    if a.toNat < b.toNat then true
    else if b.toNat < a.toNat then false
    else lexLe as bs

def strLeJs (a b : String) : Bool := lexLe a.data b.data

/-- JS `Array.prototype.sort` is a stable sort; insertion sort is stable, so
it computes the same list. -/
def sortBy {α : Type} (le : α → α → Bool) (l : List α) : List α :=
  List.insertionSort (fun a b => le a b = true) l

/-- The `data.filter(t => t.amount > 0)` pass shared by every analytics
component (debits / expenses). -/
def debitsOf (data : List Transaction) : List Transaction :=
  data.filter (fun t => 0 < t.amount)

def sumAmounts (l : List Transaction) : ℚ := (l.map Transaction.amount).sum

def meanQ (l : List ℚ) : ℚ := l.sum / l.length

/-- Population variance, i.e. the square of the `stdDev` the components
compute. -/
def varQ (l : List ℚ) : ℚ := (l.map (fun a => (a - meanQ l) ^ 2)).sum / l.length

/-- `a > avg + 2 * stdDev` where `stdDev = Math.sqrt var`: squared to stay in
`ℚ` (for `a > avg` both sides are nonnegative, so the comparison is
equivalent). -/
def exceeds2SigmaB (avg var a : ℚ) : Bool :=
  decide (avg < a) && decide (4 * var < (a - avg) ^ 2)

/-- Key/total pairs of a `Map<string, number>` accumulation pass, listed in
first-insertion order as `Map` iteration does. -/
def groupTotals (key : Transaction → String) (l : List Transaction) :
    List (String × ℚ) :=
  (firstKeys (l.map key)).map fun k => (k, sumAmounts (l.filter fun t => key t = k))

def strTakeN (s : String) (n : ℕ) : String := ⟨s.data.take n⟩

/-- `t.date.substring(0, 7)`, the `YYYY-MM` month bucket. -/
def monthKey (t : Transaction) : String := strTakeN t.date 7

/-- `new Date(t.date).getDay()` is 0 (Sunday) or 6 (Saturday); the epoch day
1970-01-01 was a Thursday (day 4).  Invalid dates give NaN and compare
false. -/
def isWeekendTx (t : Transaction) : Bool :=
  match jsEpochDays t.date with
  | some d => ((d + 4) % 7 == 0) || ((d + 4) % 7 == 6)
  | none => false

/-- Index-aware map, modelling `.map((item, index) => ...)` and
`.forEach((t, i) => push(...))`. -/
def mapWithIdx {α β : Type} (f : ℕ → α → β) : ℕ → List α → List β
  | _, [] => []
  | i, a :: as => f i a :: mapWithIdx f (i + 1) as

/-! ### AlertsAnomalies (src/frontend/components/AlertsAnomalies.tsx)

Display-only fields (`description`, `icon`) are locale-dependent rendering
strings and are omitted from the embedded alert record; no claim mentions
them. -/

inductive AlertType
  | anomaly
  | warning
  | info
deriving Repr, DecidableEq

structure Alert where
  id : String
  type : AlertType
  title : String
  amount : Option ℚ := none
  date : Option String := none
deriving Repr, DecidableEq

/-- The month-over-month spike scan (`for (let i = 1; ...)` over the sorted
month totals). -/
def spikeAlerts : List (String × ℚ) → List Alert
  | [] => []
  | [_] => []
  | (_, pa) :: (cm, ca) :: rest =>
    (if decide (pa * (3 / 2) < ca) then
      [{ id := "spike-" ++ cm, type := AlertType.warning,
         title := "Spending Spike Detected", amount := some ca }]
    else []) ++ spikeAlerts ((cm, ca) :: rest)

/-- The 2σ outlier filter over the expense list (`outliers`). -/
def outliersOf (expenses : List Transaction) : List Transaction :=
  expenses.filter fun t =>
    exceeds2SigmaB (meanQ (expenses.map Transaction.amount))
      (varQ (expenses.map Transaction.amount)) t.amount

/-- The `alerts` useMemo of AlertsAnomalies. -/
def alertsOf (data : List Transaction) : List Alert :=
  let expenses := debitsOf data
  if expenses.isEmpty then [] else
  let outlierAlerts := mapWithIdx (fun i t =>
    { id := "outlier-" ++ toString i, type := AlertType.anomaly,
      title := "Unusually Large Transaction",
      amount := some t.amount, date := some t.date : Alert }) 0 ((outliersOf expenses).take 3)
  let monthly := sortBy (fun a b => strLeJs a.1 b.1) (groupTotals monthKey expenses)
  let spikes := spikeAlerts monthly
  let totalSpend := sumAmounts expenses
  let catAlerts := (groupTotals (fun t => t.category) expenses).filterMap fun p =>
    if decide (40 < p.2 / totalSpend * 100) then
      some { id := "cat-" ++ p.1, type := AlertType.warning,
             title := "High Category Concentration", amount := some p.2 }
    else none
  let weekendSpend := sumAmounts (expenses.filter isWeekendTx)
  let weekendAlerts := if decide (totalSpend * (2 / 5) < weekendSpend) then
      [{ id := "weekend", type := AlertType.info,
         title := "Weekend Heavy Spender", amount := some weekendSpend }]
    else []
  let smallTx := expenses.filter fun t => decide (t.amount < 200)
  let smallAlerts := if decide ((expenses.length : ℚ) * (2 / 5) < (smallTx.length : ℚ)) then
      [{ id := "small-tx", type := AlertType.info, title := "Many Small Transactions" }]
    else []
  (outlierAlerts ++ spikes ++ catAlerts ++ weekendAlerts ++ smallAlerts).take 6

/-! ### RiskLeakageDetection (src/frontend/components/RiskLeakageDetection.tsx)

The component reads `new Date()` in its new-merchant scan; the embedding
takes `today` as an explicit civil-date parameter (the midnight of the
current day).  Display-only fields (`description`, `recommendation`) are
omitted; no claim mentions them. -/

inductive RiskType
  | duplicate
  | late_fee
  | high_value
  | foreign
  | suspicious
  | interest
deriving Repr, DecidableEq

inductive Severity
  | low
  | medium
  | high
  | critical
deriving Repr, DecidableEq

structure RiskAlert where
  id : String
  type : RiskType
  severity : Severity
  title : String
  amount : Option ℚ := none
  transactions : List Transaction := []
deriving Repr, DecidableEq

/-- `order = { critical: 0, high: 1, medium: 2, low: 3 }`. -/
def severityRank : Severity → ℕ
  | Severity.critical => 0
  | Severity.high => 1
  | Severity.medium => 2
  | Severity.low => 3

/-- `` `${t.merchant.toLowerCase()}_${t.amount.toFixed(2)}` ``. -/
def dupKey (t : Transaction) : String :=
  strToLower t.merchant ++ "_" ++ toFixed2 t.amount

/-- All transactions of a duplicate group lie within a 2-day window: the code
sorts the `getTime()` values and checks `last - first ≤ 2 * 86 400 000` ms,
which for a nonempty list is `max - min ≤ 2` days; an invalid date yields
NaN and a false comparison. -/
def dupWindowOk (ts : List Transaction) : Bool :=
  match ts.mapM (fun t => jsEpochDays t.date) with
  | some ds =>
    match ds.max?, ds.min? with
    | some M, some m => decide (M - m ≤ 2)
    | _, _ => false
  | none => false

def dupGroup (debits : List Transaction) (k : String) : List Transaction :=
  debits.filter fun t => dupKey t = k

def dupQualifies (debits : List Transaction) (k : String) : Bool :=
  decide (2 ≤ (dupGroup debits k).length) && dupWindowOk (dupGroup debits k)

def mkDupAlert (debits : List Transaction) (k : String) : RiskAlert :=
  { id := "dup_" ++ k, type := RiskType.duplicate, severity := Severity.high,
    title := "Potential Duplicate Charge",
    amount := some (sumAmounts (dupGroup debits k)),
    transactions := dupGroup debits k }

/-- Block 1: one alert per `(merchant, amount)` key whose group has ≥ 2
members inside the 2-day window, in `Map` iteration order. -/
def dupAlerts (debits : List Transaction) : List RiskAlert :=
  ((firstKeys (debits.map dupKey)).filter (dupQualifies debits)).map (mkDupAlert debits)

def LATE_FEE_KEYWORDS : List String :=
  ["late fee", "late payment", "penalty", "overdue", "delayed payment"]

def INTEREST_KEYWORDS : List String :=
  ["interest", "finance charge", "interest charge", "revolving"]

def FOREIGN_KEYWORDS : List String :=
  ["forex", "foreign", "international", "currency conversion", "cross border"]

def matchesKeyword (kws : List String) (t : Transaction) : Bool :=
  kws.any fun kw =>
    strIncludes (strToLower t.merchant) kw || strIncludes (strToLower t.category) kw

def lateFeeAlerts (debits : List Transaction) : List RiskAlert :=
  let lateFees := debits.filter (matchesKeyword LATE_FEE_KEYWORDS)
  if lateFees.isEmpty then [] else
    [{ id := "late_fees", type := RiskType.late_fee, severity := Severity.critical,
       title := toString lateFees.length ++ " Late Payment Fee(s) Detected",
       amount := some (sumAmounts lateFees), transactions := lateFees }]

def interestAlerts (debits : List Transaction) : List RiskAlert :=
  let interestCharges := debits.filter (matchesKeyword INTEREST_KEYWORDS)
  if interestCharges.isEmpty then [] else
    [{ id := "interest", type := RiskType.interest, severity := Severity.high,
       title := toString interestCharges.length ++ " Interest Charge(s) Detected",
       amount := some (sumAmounts interestCharges), transactions := interestCharges }]

/-- Block 3: `t.amount > avg + 2σ || t.amount > 10000`. -/
def highValueTxOf (debits : List Transaction) : List Transaction :=
  let avg := meanQ (debits.map Transaction.amount)
  let var := varQ (debits.map Transaction.amount)
  debits.filter fun t => exceeds2SigmaB avg var t.amount || decide (10000 < t.amount)

def highValueAlerts (debits : List Transaction) : List RiskAlert :=
  let highValueTx := highValueTxOf debits
  if highValueTx.isEmpty then [] else
    [{ id := "high_value", type := RiskType.high_value, severity := Severity.medium,
       title := toString highValueTx.length ++ " High-Value Transaction(s)",
       transactions := highValueTx.take 5 }]

def foreignAlerts (debits : List Transaction) : List RiskAlert :=
  let foreignTx := debits.filter (matchesKeyword FOREIGN_KEYWORDS)
  if foreignTx.isEmpty then [] else
    [{ id := "foreign", type := RiskType.foreign, severity := Severity.low,
       title := toString foreignTx.length ++ " Foreign Transaction(s)",
       amount := some (sumAmounts foreignTx * (7 / 200)),
       transactions := foreignTx }]

/-- First-seen date per lowercased merchant, scanning the date-sorted debits
(`merchantFirstSeen`). -/
def firstSeenDates (sorted : List Transaction) : List (String × String) :=
  (firstKeys (sorted.map fun t => strToLower t.merchant)).map fun k =>
    (k, match sorted.find? (fun t => strToLower t.merchant = k) with
        | some t => t.date
        | none => "")

/-- Block 5: merchants first seen within the last 30 days whose total exceeds
three times the average transaction. -/
def suspiciousAlerts (today : CivilDate) (debits : List Transaction) : List RiskAlert :=
  let avg := meanQ (debits.map Transaction.amount)
  let sortedDebits := sortBy (fun a b => strLeJs a.date b.date) debits
  let entries := firstSeenDates sortedDebits
  let news := entries.filterMap fun p =>
    let recent := match jsEpochDays p.2 with
      | some d => decide (daysFromCivil today - 30 ≤ d)
      | none => false
    if recent then
      let total := sumAmounts (debits.filter fun t => strToLower t.merchant = p.1)
      if decide (avg * 3 < total) then some p.1 else none
    else none
  if news.isEmpty then [] else
    [{ id := "suspicious_new", type := RiskType.suspicious, severity := Severity.medium,
       title := "New High-Spend Merchant(s) Detected" }]

/-- The `risks` useMemo: all five blocks in push order, then the stable sort
by severity rank. -/
def risksOf (today : CivilDate) (data : List Transaction) : List RiskAlert :=
  let debits := debitsOf data
  sortBy (fun a b => severityRank a.severity ≤ severityRank b.severity)
    (dupAlerts debits ++ lateFeeAlerts debits ++ interestAlerts debits ++
     highValueAlerts debits ++ foreignAlerts debits ++ suspiciousAlerts today debits)

/-! ### MerchantBreakdown (src/frontend/components/MerchantBreakdown.tsx) and
SpendingXRay (src/frontend/components/SpendingXRay.tsx) aggregations -/

structure MerchantData where
  name : String
  amount : ℚ
  count : ℕ
  percentage : ℚ
  category : String
deriving Repr, DecidableEq

/-- The `merchants` useMemo: group expenses by raw merchant string, map to
records with `percentage = amount / totalSpend * 100`, sort descending by
amount (`(a, b) => b.amount - a.amount`, stable). -/
def merchantsOf (data : List Transaction) : List MerchantData :=
  let expenses := debitsOf data
  let totalSpend := sumAmounts expenses
  sortBy (fun a b => b.amount ≤ a.amount)
    ((firstKeys (expenses.map Transaction.merchant)).map fun k =>
      let g := expenses.filter fun t => t.merchant = k
      { name := k, amount := sumAmounts g, count := g.length,
        percentage := sumAmounts g / totalSpend * 100,
        category := match g.head? with
          | some t => t.category
          | none => "" })

structure CategoryData where
  name : String
  amount : ℚ
  percentage : ℚ
deriving Repr, DecidableEq

/-- SpendingXRay category buckets before the top-5 slice (`color` is a
display-only field and is omitted). -/
def categoryBucketsOf (data : List Transaction) : List CategoryData :=
  let expenses := debitsOf data
  let total := sumAmounts expenses
  (firstKeys (expenses.map Transaction.category)).map fun k =>
    { name := k, amount := sumAmounts (expenses.filter fun t => t.category = k),
      percentage := sumAmounts (expenses.filter fun t => t.category = k) / total * 100 }

/-- The `topCategories` useMemo: sort descending, keep the first five. -/
def topCategoriesOf (data : List Transaction) : List CategoryData :=
  (sortBy (fun a b => b.amount ≤ a.amount) (categoryBucketsOf data)).take 5

theorem sumAmounts_nil : sumAmounts [] = 0 := rfl

theorem sumAmounts_cons (t : Transaction) (l : List Transaction) :
    sumAmounts (t :: l) = t.amount + sumAmounts l := by
  simp [sumAmounts]

theorem sumAmounts_filter_split (p : Transaction → Bool) (l : List Transaction) :
    sumAmounts (l.filter p) + sumAmounts (l.filter fun t => !(p t)) = sumAmounts l := by
  induction l with
  | nil => simp [sumAmounts]
  | cons t rest ih =>
    by_cases hp : p t
    · simp only [List.filter_cons, hp, Bool.not_true, Bool.false_eq_true, if_true,
        if_false, reduceIte, sumAmounts_cons]
      rw [← ih]; ring
    · have hp' : p t = false := by simpa using hp
      simp only [List.filter_cons, hp', Bool.not_false, Bool.false_eq_true, if_true,
        if_false, reduceIte, sumAmounts_cons]
      rw [← ih]; ring

theorem sum_groupTotals_aux (key : Transaction → String) :
    ∀ (n : ℕ) (l : List Transaction), l.length ≤ n →
      ((firstKeys (l.map key)).map
        (fun k => sumAmounts (l.filter fun t => key t = k))).sum = sumAmounts l := by
  intro n
  induction n with
  | zero =>
    intro l hl
    have hnil : l = [] := List.length_eq_zero.mp (Nat.le_zero.mp hl)
    subst hnil
    simp [firstKeys, sumAmounts]
  | succ n ih =>
    intro l hl
    cases l with
    | nil => simp [firstKeys, sumAmounts]
    | cons t rest =>
      have hfilter_map :
          ((rest.map key).filter fun s => s ≠ key t) =
            (rest.filter fun x => key x ≠ key t).map key := by
        rw [List.filter_map]
        rfl
      have hhead : (t :: rest).filter (fun x => key x = key t) =
          t :: rest.filter (fun x => key x = key t) := by
        simp [List.filter_cons]
      have htail : ∀ k ∈ firstKeys ((rest.filter fun x => key x ≠ key t).map key),
          sumAmounts ((t :: rest).filter fun x => key x = k) =
            sumAmounts ((rest.filter fun x => key x ≠ key t).filter fun x => key x = k) := by
        intro k hk
        have hkmem : k ∈ (rest.filter fun x => key x ≠ key t).map key :=
          (mem_firstKeys k _).mp hk
        obtain ⟨x, hx, hxk⟩ := List.mem_map.mp hkmem
        have hxne : key x ≠ key t := by
          have := (List.mem_filter.mp hx).2
          simpa using this
        have hkne : k ≠ key t := hxk ▸ hxne
        have h1 : (t :: rest).filter (fun x => key x = k) =
            rest.filter (fun x => key x = k) := by
          have hkt : ¬ key t = k := fun h => hkne h.symm
          simp [List.filter_cons, hkt]
        have h2 : (rest.filter fun x => key x ≠ key t).filter (fun x => key x = k) =
            rest.filter (fun x => key x = k) := by
          rw [List.filter_filter]
          apply List.filter_congr
          intro x hx2
          by_cases hxk2 : key x = k
          · have hxt : key x ≠ key t := by rw [hxk2]; exact hkne
            simp [hxk2, hxt, hkne]
          · simp [hxk2]
        rw [h1, h2]
      have hrest' : (rest.filter fun x => key x ≠ key t).length ≤ n :=
        le_trans (List.length_filter_le _ _) (by simpa using Nat.succ_le_succ_iff.mp hl)
      calc ((firstKeys ((t :: rest).map key)).map
              (fun k => sumAmounts ((t :: rest).filter fun x => key x = k))).sum
          = sumAmounts ((t :: rest).filter fun x => key x = key t) +
            ((firstKeys ((rest.filter fun x => key x ≠ key t).map key)).map
              (fun k => sumAmounts ((t :: rest).filter fun x => key x = k))).sum := by
            rw [List.map_cons, firstKeys, hfilter_map]
            simp
        _ = sumAmounts ((t :: rest).filter fun x => key x = key t) +
            ((firstKeys ((rest.filter fun x => key x ≠ key t).map key)).map
              (fun k => sumAmounts ((rest.filter fun x => key x ≠ key t).filter
                fun x => key x = k))).sum := by
            rw [List.map_congr_left htail]
        _ = sumAmounts ((t :: rest).filter fun x => key x = key t) +
            sumAmounts (rest.filter fun x => key x ≠ key t) := by
            rw [ih _ hrest']
        _ = t.amount + (sumAmounts (rest.filter fun x => key x = key t) +
            sumAmounts (rest.filter fun x => key x ≠ key t)) := by
            rw [hhead, sumAmounts_cons]; ring
        _ = sumAmounts (t :: rest) := by
            have hsp := sumAmounts_filter_split (fun x => decide (key x = key t)) rest
            rw [sumAmounts_cons]
            rw [show (fun x => decide (key x ≠ key t)) =
                  (fun x => !(decide (key x = key t))) from by
                funext x; simp [decide_not]]
            rw [hsp]

/-- Group totals partition the filtered total. -/
theorem sum_groupTotals (key : Transaction → String) (l : List Transaction) :
    ((firstKeys (l.map key)).map
      (fun k => sumAmounts (l.filter fun t => key t = k))).sum = sumAmounts l :=
  sum_groupTotals_aux key l.length l le_rfl

/-! ### RecurringPaymentFinder (src/frontend/components/RecurringPaymentFinder.tsx) -/

inductive Frequency
  | weekly
  | monthly
  | quarterly
  | yearly
deriving Repr, DecidableEq

inductive RecurringType
  | subscription
  | emi
  | utility
deriving Repr, DecidableEq

structure RecurringPayment where
  id : String
  merchant : String
  type : RecurringType
  amount : ℚ
  frequency : Frequency
  lastPaymentDate : String
  nextRenewalDate : String
  daysUntilRenewal : ℤ
  occurrences : ℕ
  yearlyTotal : ℚ
  category : String
deriving Repr, DecidableEq

def SUBSCRIPTION_KEYWORDS : List String :=
  ["netflix", "spotify", "amazon prime", "hotstar", "disney", "youtube", "apple",
   "google play", "adobe", "microsoft", "zoom", "slack", "notion", "figma",
   "gym", "fitness", "club", "membership", "prime", "swiggy one", "zomato pro"]

def EMI_KEYWORDS : List String :=
  ["emi", "loan", "installment", "bajaj", "hdfc emi", "icici emi"]

def UTILITY_KEYWORDS : List String :=
  ["electricity", "water", "gas", "internet", "broadband", "wifi", "jio", "airtel",
   "vodafone", "bsnl", "tata play", "dth", "insurance"]

/-- Merchant grouping key: `t.merchant.toLowerCase().trim()`. -/
def recKey (t : Transaction) : String := strTrim (strToLower t.merchant)

/-- `type` classification by keyword inclusion on the lowercased merchant. -/
def recTypeOf (merchant : String) : RecurringType :=
  let m := strToLower merchant
  if EMI_KEYWORDS.any (fun kw => strIncludes m kw) then RecurringType.emi
  else if UTILITY_KEYWORDS.any (fun kw => strIncludes m kw) then RecurringType.utility
  else RecurringType.subscription

/-- Sum of consecutive `getTime()` differences over the sorted dates (the
`for (let i = 1; ...)` loop), in days. -/
def gapSumDays : List ℤ → ℤ
  | [] => 0
  | [_] => 0
  | a :: b :: rest => (b - a) + gapSumDays (b :: rest)

/-- `avgDaysBetween`; `none` models the NaN produced when any date is
invalid. -/
def avgGapDays (dates : List String) : Option ℚ :=
  match dates.mapM jsEpochDays with
  | some ds => some ((gapSumDays ds : ℚ) / ((dates.length : ℚ) - 1))
  | none => none

/-- The frequency ladder; every comparison with NaN is false, so an invalid
average falls through to `yearly`. -/
def freqOf : Option ℚ → Frequency
  | none => Frequency.yearly
  | some d =>
    if d ≤ 10 then Frequency.weekly
    else if d ≤ 45 then Frequency.monthly
    else if d ≤ 120 then Frequency.quarterly
    else Frequency.yearly

def yearlyMultOf : Frequency → ℕ
  | Frequency.weekly => 52
  | Frequency.monthly => 12
  | Frequency.quarterly => 4
  | Frequency.yearly => 1

/-- One advancement step of the renewal date (the `switch (frequency)`). -/
def stepFreq : Frequency → CivilDate → CivilDate
  | Frequency.weekly, c => jsAddDays c 7
  | Frequency.monthly, c => jsAddMonths c 1
  | Frequency.quarterly, c => jsAddMonths c 3
  | Frequency.yearly, c => jsAddYears c 1

/-- `while (nextRenewal < today) step()`.  The fuel bounds the loop; every
step advances the date by at least 7 days, so the chosen fuel always
suffices and the JS loop terminates the same way. -/
def advancePastToday (freq : Frequency) (today : CivilDate) :
    ℕ → CivilDate → CivilDate
  | 0, c => c
  | fuel + 1, c =>
    if cdLt c today then advancePastToday freq today fuel (stepFreq freq c) else c

def renewalFuel (today : CivilDate) (c : CivilDate) : ℕ :=
  (daysFromCivil today - daysFromCivil c).toNat / 7 + 1

/-- The body of the per-merchant pass of the `recurringPayments` useMemo.
A group whose last payment date fails to parse is skipped: in JS that branch
would throw a `RangeError` from `toISOString()` on an Invalid Date; no claim
exercises it. -/
def recGroup (debits : List Transaction) (merchant : String) : List Transaction :=
  debits.filter fun t => recKey t = merchant

/-- `data.amounts.every(a => Math.abs(a - avgAmount) / avgAmount < 0.1)`. -/
def recConsistent (g : List Transaction) : Bool :=
  (g.map Transaction.amount).all fun a =>
    decide (|a - meanQ (g.map Transaction.amount)| /
      meanQ (g.map Transaction.amount) < 1 / 10)

/-- `const sortedDates = data.dates.sort()` (default JS sort is code-unit
lexicographic). -/
def recSortedDates (g : List Transaction) : List String :=
  sortBy strLeJs (g.map Transaction.date)

def recPaymentFor (today : CivilDate) (debits : List Transaction)
    (merchant : String) : Option RecurringPayment :=
  let g := recGroup debits merchant
  if g.length < 2 then none
  else
    let avgAmount := meanQ (g.map Transaction.amount)
    if ¬ recConsistent g then none
    else
      let sortedDates := recSortedDates g
      let frequency := freqOf (avgGapDays sortedDates)
      let lastPaymentDate := (sortedDates.getLast?).getD ""
      match parseIsoDate lastPaymentDate with
      | none => none
      | some lastPayment =>
        let firstRenewal := stepFreq frequency lastPayment
        let nextRenewal :=
          advancePastToday frequency today (renewalFuel today firstRenewal) firstRenewal
        some
          { id := merchant,
            merchant := capFirst merchant,
            type := recTypeOf merchant,
            amount := avgAmount,
            frequency := frequency,
            lastPaymentDate := lastPaymentDate,
            nextRenewalDate := nextRenewal.toIso,
            daysUntilRenewal := daysFromCivil nextRenewal - daysFromCivil today,
            occurrences := g.length,
            yearlyTotal := avgAmount * yearlyMultOf frequency,
            category := match g.head? with
              | some t => t.category
              | none => "" }

def recurringPaymentsOf (today : CivilDate) (data : List Transaction) :
    List RecurringPayment :=
  let debits := debitsOf data
  sortBy (fun a b => a.daysUntilRenewal ≤ b.daysUntilRenewal)
    ((firstKeys (debits.map recKey)).filterMap (recPaymentFor today debits))

/-! ### parseStatementFile, frontend version
(src/frontend/services/parsingService.ts, successful-response path)

The network layer is abstracted away: a successful HTTP 200 body is either a
JSON array of raw records (possibly containing `null` entries) or some
non-array value.  `todayIso` stands for `new Date().toISOString()` and `now`
for `Date.now()` in the generated ids. -/

structure RawRecord where
  date : Option String := none
  merchant : Option String := none
  /-- `none` = the `amount` key is absent (`undefined`); `some none` =
  present but `Number(...)` yields NaN; `some (some q)` = numeric. -/
  amount : Option (Option ℚ) := none
  category : Option String := none
  isRecurring : Bool := false
deriving Repr, DecidableEq

inductive ResponseBody
  | arr (items : List (Option RawRecord))
  | nonArray
deriving Repr

/-- `item && (item.date || item.merchant) && item.amount !== undefined &&
!isNaN(Number(item.amount))`. -/
def validRecord (r : RawRecord) : Bool :=
  (jsTruthy r.date || jsTruthy r.merchant) &&
  (match r.amount with
   | some (some _) => true
   | _ => false)

/-- The filter pass; a `none` item (JSON `null`) fails the leading `item &&`
check. -/
def keptRecords (items : List (Option RawRecord)) : List RawRecord :=
  items.filterMap fun o => o.bind fun r => if validRecord r then some r else none

/-- `Number(item.amount) || 0` on a kept record is just its numeric value
(also when it is 0). -/
def amountOf (r : RawRecord) : ℚ :=
  match r.amount with
  | some (some q) => q
  | _ => 0

def mkTx (todayIso now : String) (i : ℕ) (r : RawRecord) : Transaction :=
  { id := "parsed-tx-" ++ toString i ++ "-" ++ now,
    date := match r.date with
      | some s => if s ≠ "" then s else todayIso
      | none => todayIso,
    merchant := match r.merchant with
      | some s => if s ≠ "" then s else "Unknown"
      | none => "Unknown",
    amount := amountOf r,
    category := match r.category with
      | some s => if s ≠ "" then s else "Uncategorized"
      | none => "Uncategorized",
    isRecurring := r.isRecurring }

/-- Frontend `parseStatementFile` applied to a successful response body. -/
def parseStatementBody (todayIso now : String) :
    ResponseBody → Except String (List Transaction)
  | ResponseBody.nonArray => Except.error "Invalid response format: expected an array"
  | ResponseBody.arr items => Except.ok (mapWithIdx (mkTx todayIso now) 0 (keptRecords items))

/-! ### parseStatementFile, legacy version (src/services/parsingService.ts)

No filtering, no defaults; a non-array body logs a warning and returns `[]`.
A `null` array item would throw a `TypeError` when its properties are read,
surfacing as an error from the call. -/

structure LegacyTransaction where
  id : String
  date : Option String
  merchant : Option String
  /-- `none` models the NaN of `Number(...)` on a missing or non-numeric
  amount. -/
  amount : Option ℚ
  category : Option String
  isRecurring : Bool
deriving Repr, DecidableEq

def legacyMkTx (now : String) (i : ℕ) (r : RawRecord) : LegacyTransaction :=
  { id := "parsed-tx-" ++ toString i ++ "-" ++ now,
    date := r.date,
    merchant := r.merchant,
    amount := match r.amount with
      | some (some q) => some q
      | _ => none,
    category := r.category,
    isRecurring := r.isRecurring }

def legacyParseBody (now : String) :
    ResponseBody → Except String (List LegacyTransaction)
  | ResponseBody.nonArray => Except.ok []
  | ResponseBody.arr items =>
    if items.all Option.isSome then
      Except.ok (mapWithIdx (legacyMkTx now) 0 (items.filterMap id))
    else Except.error "TypeError: cannot read properties of null"

/-! ### Multi-file processing (src/frontend/App.tsx, `processFilesWithPassword`)

The parser is abstracted as a deterministic oracle
`parse : file → withPassword → Except message transactions`; `parse f true`
is `parseStatementFile(file, password)` with the stored password and
`parse f false` is the retry without it.  The embedding also records the
call log so that "retried exactly once" is a provable statement. -/

structure UploadFile where
  name : String
deriving Repr, DecidableEq

structure ProcResult where
  transactions : List Transaction
  skipped : List String
  calls : List (UploadFile × Bool)
deriving Repr, DecidableEq

/-- `msg.toLowerCase().includes('password')`. -/
def containsPasswordCI (m : String) : Bool := strIncludes (strToLower m) "password"

/-- `err.message || "Failed to parse file"`. -/
def errMsgOr (m : String) : String := if m = "" then "Failed to parse file" else m

def processFiles (parse : UploadFile → Bool → Except String (List Transaction)) :
    List UploadFile → ProcResult
  | [] => ⟨[], [], []⟩
  | f :: fs =>
    let r := processFiles parse fs
    match parse f true with
    | Except.ok ts => ⟨ts ++ r.transactions, r.skipped, (f, true) :: r.calls⟩
    | Except.error m =>
      let msg := errMsgOr m
      if containsPasswordCI msg then
        match parse f false with
        | Except.ok ts =>
          ⟨ts ++ r.transactions, r.skipped, (f, true) :: (f, false) :: r.calls⟩
        | Except.error _ =>
          ⟨r.transactions, (f.name ++ " (incorrect password)") :: r.skipped,
           (f, true) :: (f, false) :: r.calls⟩
      else
        ⟨r.transactions, (f.name ++ " (" ++ msg ++ ")") :: r.skipped,
         (f, true) :: r.calls⟩

/-- Transactions retained for one file. -/
def fileTxOf (parse : UploadFile → Bool → Except String (List Transaction))
    (f : UploadFile) : List Transaction :=
  match parse f true with
  | Except.ok ts => ts
  | Except.error m =>
    if containsPasswordCI (errMsgOr m) then
      match parse f false with
      | Except.ok ts => ts
      | Except.error _ => []
    else []

/-- Skipped-files entry for one file, if any. -/
def fileSkipOf (parse : UploadFile → Bool → Except String (List Transaction))
    (f : UploadFile) : Option String :=
  match parse f true with
  | Except.ok _ => none
  | Except.error m =>
    let msg := errMsgOr m
    if containsPasswordCI msg then
      match parse f false with
      | Except.ok _ => none
      | Except.error _ => some (f.name ++ " (incorrect password)")
    else some (f.name ++ " (" ++ msg ++ ")")

/-- Parser invocations made for one file. -/
def fileCallsOf (parse : UploadFile → Bool → Except String (List Transaction))
    (f : UploadFile) : List (UploadFile × Bool) :=
  match parse f true with
  | Except.ok _ => [(f, true)]
  | Except.error m =>
    if containsPasswordCI (errMsgOr m) then [(f, true), (f, false)]
    else [(f, true)]

/-! ## Claim theorems -/

/-- Claim C8: during multi-file processing with a stored password, a file
whose first parse fails with a message containing 'password'
(case-insensitively) is retried exactly once without the password; if the
retry also fails the file name is appended to the skipped list and
processing continues sequentially, retaining every transaction parsed so
far.  The per-file decomposition of the fold (transactions, skipped list and
call log all split file by file) is exactly this: no file aborts the loop,
each file is parsed once with the password and at most once more without
it, and there is no second retry. -/
theorem claim_C8_password_retry
    (parse : UploadFile → Bool → Except String (List Transaction))
    (files : List UploadFile) :
    (processFiles parse files).transactions = files.flatMap (fileTxOf parse) ∧
    (processFiles parse files).skipped = files.filterMap (fileSkipOf parse) ∧
    (processFiles parse files).calls = files.flatMap (fileCallsOf parse) ∧
    (∀ f m, parse f true = Except.error m → containsPasswordCI (errMsgOr m) = true →
      fileCallsOf parse f = [(f, true), (f, false)] ∧
      ∀ m2, parse f false = Except.error m2 →
        fileSkipOf parse f = some (f.name ++ " (incorrect password)") ∧
        fileTxOf parse f = []) := by
  refine ⟨?_, ?_, ?_, ?_⟩
  · induction files with
    | nil => rfl
    | cons f fs ih =>
      simp only [processFiles, List.flatMap_cons]
      cases hp : parse f true with
      | ok ts => simp [fileTxOf, hp, ih]
      | error m =>
        by_cases hpw : containsPasswordCI (errMsgOr m)
        · cases hr : parse f false with
          | ok ts => simp [fileTxOf, hp, hpw, hr, ih]
          | error m2 => simp [fileTxOf, hp, hpw, hr, ih]
        · simp [fileTxOf, hp, hpw, ih]
  · induction files with
    | nil => rfl
    | cons f fs ih =>
      simp only [processFiles, List.filterMap_cons]
      cases hp : parse f true with
      | ok ts => simp [fileSkipOf, hp, ih]
      | error m =>
        by_cases hpw : containsPasswordCI (errMsgOr m)
        · cases hr : parse f false with
          | ok ts => simp [fileSkipOf, hp, hpw, hr, ih]
          | error m2 => simp [fileSkipOf, hp, hpw, hr, ih]
        · simp [fileSkipOf, hp, hpw, ih]
  · induction files with
    | nil => rfl
    | cons f fs ih =>
      simp only [processFiles, List.flatMap_cons]
      cases hp : parse f true with
      | ok ts => simp [fileCallsOf, hp, ih]
      | error m =>
        by_cases hpw : containsPasswordCI (errMsgOr m)
        · cases hr : parse f false with
          | ok ts => simp [fileCallsOf, hp, hpw, hr, ih]
          | error m2 => simp [fileCallsOf, hp, hpw, hr, ih]
        · simp [fileCallsOf, hp, hpw, ih]
  · intro f m hp hpw
    refine ⟨by simp [fileCallsOf, hp, hpw], ?_⟩
    intro m2 hr
    exact ⟨by simp [fileSkipOf, hp, hpw, hr], by simp [fileTxOf, hp, hpw, hr]⟩

def c8tx : Transaction :=
  { id := "t1", date := "2026-01-05", merchant := "Amazon", amount := 100,
    category := "Shopping" }

/-- A concrete oracle: `locked.pdf` fails with a password message both with
and without the stored password; `plain.pdf` parses. -/
def c8parse : UploadFile → Bool → Except String (List Transaction) :=
  fun f wp =>
    if f.name = "locked.pdf" then
      if wp then Except.error "Incorrect Password provided"
      else Except.error "Password required"
    else Except.ok [c8tx]

/-- Witness for C8 at a concrete oracle and file list. -/
theorem claim_C8_password_retry_witness :
    (processFiles c8parse [⟨"locked.pdf"⟩, ⟨"plain.pdf"⟩]).calls =
      [(⟨"locked.pdf"⟩, true), (⟨"locked.pdf"⟩, false), (⟨"plain.pdf"⟩, true)] ∧
    (processFiles c8parse [⟨"locked.pdf"⟩, ⟨"plain.pdf"⟩]).skipped =
      ["locked.pdf (incorrect password)"] ∧
    (processFiles c8parse [⟨"locked.pdf"⟩, ⟨"plain.pdf"⟩]).transactions = [c8tx] ∧
    fileCallsOf c8parse ⟨"locked.pdf"⟩ = [(⟨"locked.pdf"⟩, true), (⟨"locked.pdf"⟩, false)] := by
  obtain ⟨htx, hsk, hcalls, hper⟩ :=
    claim_C8_password_retry c8parse [⟨"locked.pdf"⟩, ⟨"plain.pdf"⟩]
  have hp : c8parse ⟨"locked.pdf"⟩ true = Except.error "Incorrect Password provided" := by
    rfl
  have hpw : containsPasswordCI (errMsgOr "Incorrect Password provided") = true := by
    decide
  refine ⟨?_, ?_, ?_, (hper _ _ hp hpw).1⟩
  · rw [hcalls]; decide
  · rw [hsk]; decide
  · rw [htx]; decide

theorem length_mapWithIdx {α β : Type} (f : ℕ → α → β) :
    ∀ (i : ℕ) (l : List α), (mapWithIdx f i l).length = l.length := by
  intro i l
  induction l generalizing i with
  | nil => rfl
  | cons a as ih => simp [mapWithIdx, ih]

theorem spikeAlerts_title :
    ∀ (l : List (String × ℚ)) (a : Alert), a ∈ spikeAlerts l →
      a.title = "Spending Spike Detected"
  | [], a => by simp [spikeAlerts]
  | [_], a => by simp [spikeAlerts]
  | (pm, pa) :: (cm, ca) :: rest, a => by
    intro ha
    rw [spikeAlerts] at ha
    rcases List.mem_append.mp ha with h | h
    · split at h
      · simp only [List.mem_singleton] at h
        subst h; rfl
      · cases h
    · exact spikeAlerts_title ((cm, ca) :: rest) a h

/-- The outlier-title test used to count anomaly alerts. -/
def isOutlierAlert (a : Alert) : Bool := a.title == "Unusually Large Transaction"

/-- Claim C9: the alerts list contains at most 6 alerts, and at most 3 of
them are 'Unusually Large Transaction' outliers, for every input. -/
theorem claim_C9_alert_caps (data : List Transaction) :
    (alertsOf data).length ≤ 6 ∧
    (alertsOf data).countP isOutlierAlert ≤ 3 := by
  simp only [alertsOf]
  split
  · simp
  · refine ⟨?_, ?_⟩
    · exact (List.length_take 6 _) ▸ min_le_left 6 _
    · set expenses := debitsOf data with hexp
      apply le_trans (List.Sublist.countP_le _ (List.take_sublist 6 _))
      simp only [List.countP_append]
      have h1 : (mapWithIdx (fun i t =>
          { id := "outlier-" ++ toString i, type := AlertType.anomaly,
            title := "Unusually Large Transaction",
            amount := some t.amount, date := some t.date : Alert }) 0
            ((outliersOf expenses).take 3)).countP isOutlierAlert ≤ 3 := by
        apply le_trans (List.countP_le_length _)
        rw [length_mapWithIdx]
        exact (List.length_take 3 _) ▸ min_le_left 3 _
      have h2 : (spikeAlerts (sortBy (fun a b => strLeJs a.1 b.1)
          (groupTotals monthKey expenses))).countP isOutlierAlert = 0 := by
        apply List.countP_eq_zero.mpr
        intro a ha
        have := spikeAlerts_title _ a ha
        simp [isOutlierAlert, this]
      have h3 : ((groupTotals (fun t => t.category) expenses).filterMap fun p =>
          if decide (40 < p.2 / sumAmounts expenses * 100) then
            some { id := "cat-" ++ p.1, type := AlertType.warning,
                   title := "High Category Concentration", amount := some p.2 }
          else none).countP isOutlierAlert = 0 := by
        apply List.countP_eq_zero.mpr
        intro a ha
        obtain ⟨p, hp, hpa⟩ := List.mem_filterMap.mp ha
        split at hpa
        · cases hpa
          simp [isOutlierAlert]
        · cases hpa
      have h4 : (if decide (sumAmounts expenses * (2 / 5) <
          sumAmounts (expenses.filter isWeekendTx)) then
            [{ id := "weekend", type := AlertType.info,
               title := "Weekend Heavy Spender",
               amount := some (sumAmounts (expenses.filter isWeekendTx)) : Alert }]
          else []).countP isOutlierAlert = 0 := by
        split
        · simp [List.countP_cons, isOutlierAlert]
        · rfl
      have h5 : (if decide ((expenses.length : ℚ) * (2 / 5) <
          ((expenses.filter fun t => decide (t.amount < 200)).length : ℚ)) then
            [{ id := "small-tx", type := AlertType.info,
               title := "Many Small Transactions" : Alert }]
          else []).countP isOutlierAlert = 0 := by
        split
        · simp [List.countP_cons, isOutlierAlert]
        · rfl
      omega

/-- Claim C10: in the returned risk list, severity rank is nondecreasing:
every critical alert precedes every high alert, which precedes every medium
alert, which precedes every low alert. -/
theorem claim_C10_risks_sorted (today : CivilDate) (data : List Transaction) :
    (risksOf today data).Pairwise
      (fun a b => severityRank a.severity ≤ severityRank b.severity) := by
  unfold risksOf sortBy
  haveI htot : IsTotal RiskAlert
      (fun a b => (decide (severityRank a.severity ≤ severityRank b.severity)) = true) := by
    constructor
    intro a b
    rcases Nat.le_total (severityRank a.severity) (severityRank b.severity) with h | h
    · left; simpa using h
    · right; simpa using h
  haveI htr : IsTrans RiskAlert
      (fun a b => (decide (severityRank a.severity ≤ severityRank b.severity)) = true) := by
    constructor
    intro a b c hab hbc
    simp only [decide_eq_true_eq] at hab hbc ⊢
    omega
  have hs := List.sorted_insertionSort
    (fun a b : RiskAlert => (decide (severityRank a.severity ≤ severityRank b.severity)) = true)
    (debitsOf data |> fun debits =>
      dupAlerts debits ++ lateFeeAlerts debits ++ interestAlerts debits ++
      highValueAlerts debits ++ foreignAlerts debits ++ suspiciousAlerts today debits)
  exact List.Pairwise.imp (fun h => by simpa using h) hs

theorem debitsOf_drop_nonpos (l₁ l₂ : List Transaction) (t : Transaction)
    (h : t.amount ≤ 0) :
    debitsOf (l₁ ++ t :: l₂) = debitsOf (l₁ ++ l₂) := by
  have hfalse : (decide (0 < t.amount)) = false := by
    simpa using not_lt.mpr h
  simp [debitsOf, List.filter_append, List.filter_cons, hfalse]

/-- Claim C6: a transaction enters the shared debit/expense filter iff its
amount is strictly positive, and inserting a nonpositive (credit/refund)
transaction anywhere leaves every debit aggregate — spend total, merchant
breakdown, category buckets, alerts, risk alerts and recurring payments —
unchanged. -/
theorem claim_C6_sign_convention :
    (∀ (data : List Transaction) (t : Transaction), t ∈ data →
      (t ∈ debitsOf data ↔ 0 < t.amount)) ∧
    (∀ (l₁ l₂ : List Transaction) (t : Transaction), t.amount ≤ 0 →
      sumAmounts (debitsOf (l₁ ++ t :: l₂)) = sumAmounts (debitsOf (l₁ ++ l₂)) ∧
      merchantsOf (l₁ ++ t :: l₂) = merchantsOf (l₁ ++ l₂) ∧
      categoryBucketsOf (l₁ ++ t :: l₂) = categoryBucketsOf (l₁ ++ l₂) ∧
      alertsOf (l₁ ++ t :: l₂) = alertsOf (l₁ ++ l₂) ∧
      (∀ today, risksOf today (l₁ ++ t :: l₂) = risksOf today (l₁ ++ l₂)) ∧
      (∀ today, recurringPaymentsOf today (l₁ ++ t :: l₂) =
        recurringPaymentsOf today (l₁ ++ l₂))) := by
  constructor
  · intro data t htmem
    simp [debitsOf, List.mem_filter, htmem]
  · intro l₁ l₂ t h
    have hdeb := debitsOf_drop_nonpos l₁ l₂ t h
    refine ⟨by rw [hdeb], ?_, ?_, ?_, ?_, ?_⟩
    · unfold merchantsOf; rw [hdeb]
    · unfold categoryBucketsOf; rw [hdeb]
    · unfold alertsOf outliersOf; rw [hdeb]
    · intro today; unfold risksOf; rw [hdeb]
    · intro today; unfold recurringPaymentsOf; rw [hdeb]

def c6pos : Transaction :=
  { id := "p", date := "2026-01-05", merchant := "Amazon", amount := 100,
    category := "Shopping" }

def c6neg : Transaction :=
  { id := "n", date := "2026-01-06", merchant := "Amazon", amount := -50,
    category := "Refund" }

/-- Witness for C6 at a concrete refund transaction. -/
theorem claim_C6_sign_convention_witness :
    (c6neg ∈ debitsOf [c6pos, c6neg] ↔ 0 < c6neg.amount) ∧
    merchantsOf ([c6pos] ++ c6neg :: []) = merchantsOf ([c6pos] ++ []) ∧
    sumAmounts (debitsOf ([c6pos] ++ c6neg :: [])) =
      sumAmounts (debitsOf ([c6pos] ++ [])) := by
  have hneg : c6neg.amount ≤ 0 := by norm_num [c6neg]
  obtain ⟨hmem, hrest⟩ := claim_C6_sign_convention
  obtain ⟨hsum, hmerch, -⟩ := hrest [c6pos] [] c6neg hneg
  exact ⟨hmem [c6pos, c6neg] c6neg (by simp), hmerch, hsum⟩

theorem sumAmounts_pos (l : List Transaction) (hne : l ≠ [])
    (hpos : ∀ t ∈ l, 0 < t.amount) : 0 < sumAmounts l := by
  apply List.sum_pos
  · intro x hx
    obtain ⟨t, ht, rfl⟩ := List.mem_map.mp hx
    exact hpos t ht
  · simpa using hne

theorem percentage_sum_for_key (key : Transaction → String) (l : List Transaction)
    (hT : sumAmounts l ≠ 0) :
    ((firstKeys (l.map key)).map
      (fun k => sumAmounts (l.filter fun t => key t = k) / sumAmounts l * 100)).sum
      = 100 := by
  have hfac : ∀ k : String,
      sumAmounts (l.filter fun t => key t = k) / sumAmounts l * 100 =
        sumAmounts (l.filter fun t => key t = k) * (100 / sumAmounts l) := by
    intro k; field_simp; try ring
  rw [List.map_congr_left fun k _ => hfac k, List.sum_map_mul_right,
    sum_groupTotals key l]
  field_simp

/-- Claim C4 (amended to nonempty input): with at least one transaction and
no credit/refund entries, the merchant-breakdown percentages and the
category-bucket percentages each sum to exactly 100 in exact rational
arithmetic. -/
theorem claim_C4_percentages_sum (data : List Transaction)
    (hne : data ≠ []) (hpos : ∀ t ∈ data, 0 < t.amount) :
    ((merchantsOf data).map MerchantData.percentage).sum = 100 ∧
    ((categoryBucketsOf data).map CategoryData.percentage).sum = 100 := by
  have hdeb : debitsOf data = data := by
    apply List.filter_eq_self.mpr
    intro t ht
    simpa using hpos t ht
  have hT : sumAmounts data ≠ 0 := ne_of_gt (sumAmounts_pos data hne hpos)
  constructor
  · unfold merchantsOf sortBy
    rw [hdeb]
    have hperm := List.perm_insertionSort
      (fun a b : MerchantData => (decide (b.amount ≤ a.amount)) = true)
      ((firstKeys (data.map Transaction.merchant)).map fun k =>
        let g := data.filter fun t => t.merchant = k
        { name := k, amount := sumAmounts g, count := g.length,
          percentage := sumAmounts g / sumAmounts data * 100,
          category := match g.head? with
            | some t => t.category
            | none => "" : MerchantData })
    rw [(hperm.map MerchantData.percentage).sum_eq]
    rw [List.map_map]
    exact percentage_sum_for_key Transaction.merchant data hT
  · unfold categoryBucketsOf
    rw [hdeb, List.map_map]
    exact percentage_sum_for_key Transaction.category data hT

/-- Witness for C4 at a concrete single-transaction list. -/
theorem claim_C4_percentages_sum_witness :
    ([c6pos] ≠ ([] : List Transaction)) ∧
    ((merchantsOf [c6pos]).map MerchantData.percentage).sum = 100 := by
  have h := claim_C4_percentages_sum [c6pos] (by simp)
    (by intro t ht; simp at ht; subst ht; norm_num [c6pos])
  exact ⟨by simp, h.1⟩

/-- Counterexample to C4 as stated: the empty list has no credit/refund
entries, yet its bucket percentages sum to 0, not 100. -/
theorem claim_C4_empty_counterexample :
    (∀ t ∈ ([] : List Transaction), 0 < t.amount) ∧
    ((merchantsOf []).map MerchantData.percentage).sum = 0 ∧
    ((categoryBucketsOf []).map CategoryData.percentage).sum = 0 ∧
    (0 : ℚ) ≠ 100 := by
  refine ⟨by simp, ?_, ?_, by norm_num⟩
  · simp [merchantsOf, debitsOf, firstKeys, sortBy]
  · simp [categoryBucketsOf, debitsOf, firstKeys]

theorem String.ext_of_data {s t : String} (h : s.data = t.data) : s = t := by
  cases s; cases t; exact congrArg String.mk (by simpa using h)

theorem dup_prefix_data (k : String) :
    ("dup_" ++ k).data = 'd' :: 'u' :: 'p' :: '_' :: k.data := by
  rw [String.data_append]; rfl

theorem dup_id_left_cancel {a b : String} (h : "dup_" ++ a = "dup_" ++ b) : a = b := by
  have hd := congrArg String.data h
  rw [dup_prefix_data, dup_prefix_data] at hd
  simp only [List.cons.injEq, true_and] at hd
  exact String.ext_of_data hd

theorem ne_dup_id {k s : String} (hhead : s.data.head? ≠ some 'd') :
    s ≠ "dup_" ++ k := by
  intro h
  apply hhead
  rw [h, dup_prefix_data]
  rfl

/-- Claim C1: grouping debits by (lowercased merchant, 2-decimal amount) key,
every group with at least two members whose dates all fall in the 2-day
window produces exactly one duplicate alert in the risk list, and that alert
references all transactions of the group. -/
theorem claim_C1_duplicate_exactly_one (today : CivilDate) (data : List Transaction)
    (k : String)
    (h2 : 2 ≤ (dupGroup (debitsOf data) k).length)
    (hw : dupWindowOk (dupGroup (debitsOf data) k) = true) :
    (risksOf today data).countP (fun a => a.id == "dup_" ++ k) = 1 ∧
    ∀ a ∈ risksOf today data, a.id = "dup_" ++ k →
      a.transactions = dupGroup (debitsOf data) k := by
  have hqual : dupQualifies (debitsOf data) k = true := by
    simp [dupQualifies, h2, hw]
  have hne : dupGroup (debitsOf data) k ≠ [] := by
    intro h0; rw [h0] at h2; simp at h2
  have hkmem : k ∈ firstKeys ((debitsOf data).map dupKey) := by
    rw [mem_firstKeys]
    obtain ⟨t, ht⟩ := List.exists_mem_of_ne_nil _ hne
    have htf := List.mem_filter.mp ht
    exact List.mem_map.mpr ⟨t, htf.1, by simpa using htf.2⟩
  have hmemf : k ∈ (firstKeys ((debitsOf data).map dupKey)).filter
      (dupQualifies (debitsOf data)) :=
    List.mem_filter.mpr ⟨hkmem, hqual⟩
  have hnd : ((firstKeys ((debitsOf data).map dupKey)).filter
      (dupQualifies (debitsOf data))).Nodup :=
    (nodup_firstKeys _).filter _
  have hperm : List.Perm (risksOf today data)
      (dupAlerts (debitsOf data) ++ lateFeeAlerts (debitsOf data) ++
       interestAlerts (debitsOf data) ++ highValueAlerts (debitsOf data) ++
       foreignAlerts (debitsOf data) ++ suspiciousAlerts today (debitsOf data)) := by
    simp only [risksOf, sortBy]
    exact List.perm_insertionSort _ _
  have hdupcount : (dupAlerts (debitsOf data)).countP (fun a => a.id == "dup_" ++ k) = 1 := by
    unfold dupAlerts
    rw [List.countP_map]
    have hpt : ∀ k' ∈ (firstKeys ((debitsOf data).map dupKey)).filter
        (dupQualifies (debitsOf data)),
        ((fun a => a.id == "dup_" ++ k) ∘ mkDupAlert (debitsOf data)) k' = (k' == k) := by
      intro k' _
      show (("dup_" ++ k') == ("dup_" ++ k)) = (k' == k)
      by_cases hkk : k' = k
      · subst hkk; simp
      · have h1 : ("dup_" ++ k') ≠ ("dup_" ++ k) := fun h => hkk (dup_id_left_cancel h)
        rw [beq_eq_false_iff_ne.mpr h1, beq_eq_false_iff_ne.mpr hkk]
    rw [List.countP_congr (fun x hx => by rw [hpt x hx])]
    exact List.count_eq_one_of_mem hnd hmemf
  have hlate : (lateFeeAlerts (debitsOf data)).countP (fun a => a.id == "dup_" ++ k) = 0 := by
    simp only [lateFeeAlerts]
    split
    · rfl
    · simp [List.countP_cons,
        beq_eq_false_iff_ne.mpr (ne_dup_id (k := k) (s := "late_fees") (by decide))]
  have hint : (interestAlerts (debitsOf data)).countP (fun a => a.id == "dup_" ++ k) = 0 := by
    simp only [interestAlerts]
    split
    · rfl
    · simp [List.countP_cons,
        beq_eq_false_iff_ne.mpr (ne_dup_id (k := k) (s := "interest") (by decide))]
  have hhigh : (highValueAlerts (debitsOf data)).countP (fun a => a.id == "dup_" ++ k) = 0 := by
    simp only [highValueAlerts]
    split
    · rfl
    · simp [List.countP_cons,
        beq_eq_false_iff_ne.mpr (ne_dup_id (k := k) (s := "high_value") (by decide))]
  have hfor : (foreignAlerts (debitsOf data)).countP (fun a => a.id == "dup_" ++ k) = 0 := by
    simp only [foreignAlerts]
    split
    · rfl
    · simp [List.countP_cons,
        beq_eq_false_iff_ne.mpr (ne_dup_id (k := k) (s := "foreign") (by decide))]
  have hsus : (suspiciousAlerts today (debitsOf data)).countP
      (fun a => a.id == "dup_" ++ k) = 0 := by
    simp only [suspiciousAlerts]
    split
    · rfl
    · simp [List.countP_cons,
        beq_eq_false_iff_ne.mpr (ne_dup_id (k := k) (s := "suspicious_new") (by decide))]
  constructor
  · rw [hperm.countP_eq]
    simp only [List.countP_append]
    omega
  · intro a ha hid
    have ha' := hperm.mem_iff.mp ha
    simp only [List.mem_append] at ha'
    rcases ha' with ((((hdup | hl) | hi) | hh) | hf) | hs
    · unfold dupAlerts at hdup
      obtain ⟨k', hk', hak⟩ := List.mem_map.mp hdup
      have : "dup_" ++ k' = "dup_" ++ k := by rw [← hak] at hid; exact hid
      have hkk : k' = k := dup_id_left_cancel this
      rw [← hak, hkk]
      rfl
    · exfalso
      simp only [lateFeeAlerts] at hl
      split at hl
      · cases hl
      · simp only [List.mem_singleton] at hl
        subst hl
        exact ne_dup_id (k := k) (s := "late_fees") (by decide) hid
    · exfalso
      simp only [interestAlerts] at hi
      split at hi
      · cases hi
      · simp only [List.mem_singleton] at hi
        subst hi
        exact ne_dup_id (k := k) (s := "interest") (by decide) hid
    · exfalso
      simp only [highValueAlerts] at hh
      split at hh
      · cases hh
      · simp only [List.mem_singleton] at hh
        subst hh
        exact ne_dup_id (k := k) (s := "high_value") (by decide) hid
    · exfalso
      simp only [foreignAlerts] at hf
      split at hf
      · cases hf
      · simp only [List.mem_singleton] at hf
        subst hf
        exact ne_dup_id (k := k) (s := "foreign") (by decide) hid
    · exfalso
      simp only [suspiciousAlerts] at hs
      split at hs
      · cases hs
      · simp only [List.mem_singleton] at hs
        subst hs
        exact ne_dup_id (k := k) (s := "suspicious_new") (by decide) hid

def c1t1 : Transaction :=
  { id := "a", date := "2026-01-10", merchant := "Amazon", amount := 100,
    category := "Shopping" }

def c1t2 : Transaction :=
  { id := "b", date := "2026-01-11", merchant := "Amazon", amount := 100,
    category := "Shopping" }

def c1data : List Transaction := [c1t1, c1t2]

def c1today : CivilDate := ⟨2026, 2, 1⟩

theorem c1_group_eval : dupGroup (debitsOf c1data) (dupKey c1t1) = [c1t1, c1t2] := by
  have h1 : (0 : ℚ) < 100 := by norm_num
  simp [dupGroup, debitsOf, c1data, c1t1, c1t2, List.filter, dupKey, h1]

/-- Witness for C1: two identical (merchant, amount) charges one day apart
yield exactly one duplicate alert, and it references both transactions. -/
theorem claim_C1_duplicate_exactly_one_witness :
    2 ≤ (dupGroup (debitsOf c1data) (dupKey c1t1)).length ∧
    dupWindowOk (dupGroup (debitsOf c1data) (dupKey c1t1)) = true ∧
    (risksOf c1today c1data).countP (fun a => a.id == "dup_" ++ dupKey c1t1) = 1 ∧
    ∀ a ∈ risksOf c1today c1data, a.id = "dup_" ++ dupKey c1t1 →
      a.transactions = [c1t1, c1t2] := by
  have h2 : 2 ≤ (dupGroup (debitsOf c1data) (dupKey c1t1)).length := by
    rw [c1_group_eval]; decide
  have hw : dupWindowOk (dupGroup (debitsOf c1data) (dupKey c1t1)) = true := by
    rw [c1_group_eval]; decide
  obtain ⟨hcount, href⟩ :=
    claim_C1_duplicate_exactly_one c1today c1data (dupKey c1t1) h2 hw
  exact ⟨h2, hw, hcount, fun a ha hid => c1_group_eval ▸ href a ha hid⟩

theorem daysInMonth_ge_28 (y m : ℕ) : 28 ≤ daysInMonth y m := by
  unfold daysInMonth
  split
  · split <;> omega
  · split <;> omega

theorem jsAddMonths_one_of_le28 (c : CivilDate) (hm1 : 1 ≤ c.m) (hm12 : c.m ≤ 12)
    (hd : c.d ≤ 28) :
    jsAddMonths c 1 = ⟨(monthSucc c.y c.m).1, (monthSucc c.y c.m).2, c.d⟩ := by
  cases c with
  | mk y m d =>
    simp only at hm1 hm12 hd
    unfold jsAddMonths
    have hm0 : m - 1 + 1 = m := by omega
    simp only [hm0]
    by_cases h12 : m = 12
    · subst h12
      have hdim : d ≤ daysInMonth (y + 1) 1 := le_trans hd (daysInMonth_ge_28 _ _)
      simp [jsDateNorm, monthSucc, hdim]
    · have hlt : m < 12 := by omega
      have h12' : ¬ 12 ≤ m := by omega
      have hdiv : m / 12 = 0 := Nat.div_eq_of_lt hlt
      have hmod : m % 12 = m := Nat.mod_eq_of_lt hlt
      have hdim : d ≤ daysInMonth y (m + 1) := le_trans hd (daysInMonth_ge_28 _ _)
      simp [hdiv, hmod, jsDateNorm, monthSucc, hdim, h12']

theorem advancePastToday_id (freq : Frequency) (today : CivilDate) (fuel : ℕ)
    (c : CivilDate) (h : cdLt c today = false) :
    advancePastToday freq today fuel c = c := by
  cases fuel <;> simp [advancePastToday, h]

theorem parseIsoDate_valid {s : String} {c : CivilDate} (h : parseIsoDate s = some c) :
    1 ≤ c.m ∧ c.m ≤ 12 ∧ 1 ≤ c.d ∧ c.d ≤ daysInMonth c.y c.m := by
  simp only [parseIsoDate] at h
  split at h
  · split at h
    · split at h
      · next hcond =>
        cases h
        exact ⟨hcond.1, hcond.2.1, hcond.2.2.1, hcond.2.2.2⟩
      · cases h
    · cases h
  · cases h

theorem recPaymentFor_id {today : CivilDate} {debits : List Transaction}
    {m : String} {p : RecurringPayment} (h : recPaymentFor today debits m = some p) :
    p.id = m := by
  simp only [recPaymentFor] at h
  split at h
  · cases h
  · split at h
    · cases h
    · split at h
      · cases h
      · cases h
        rfl

/-- Claim C2 (amended): a merchant with at least two debit occurrences,
amounts all within 10% of their mean, and average gap in the monthly band
(10 < gap ≤ 45 days) is classified 'monthly'; provided the last payment's
day-of-month is at most 28 and the projection is not before today, the
projected next renewal is the same day of the immediately following calendar
month.  (For day-of-month 29–31 the JS `setMonth` day-overflow can push the
date into the month after next, and when the projection lies before today
the `while` loop advances it further; see the counterexample.) -/
theorem claim_C2_monthly_recurrence (today : CivilDate) (data : List Transaction)
    (k : String) (gap : ℚ) (lp : CivilDate)
    (hg2 : 2 ≤ (recGroup (debitsOf data) k).length)
    (hcons : recConsistent (recGroup (debitsOf data) k) = true)
    (hgap : avgGapDays (recSortedDates (recGroup (debitsOf data) k)) = some gap)
    (h10 : ¬ gap ≤ 10) (h45 : gap ≤ 45)
    (hlast : parseIsoDate
      (((recSortedDates (recGroup (debitsOf data) k)).getLast?).getD "") = some lp)
    (hday : lp.d ≤ 28)
    (htoday : cdLt (jsAddMonths lp 1) today = false) :
    ∃ p ∈ recurringPaymentsOf today data,
      p.id = k ∧ p.frequency = Frequency.monthly ∧
      p.nextRenewalDate =
        CivilDate.toIso ⟨(monthSucc lp.y lp.m).1, (monthSucc lp.y lp.m).2, lp.d⟩ ∧
      ∀ p' ∈ recurringPaymentsOf today data, p'.id = k → p' = p := by
  obtain ⟨hm1, hm12, hd1, hdim⟩ := parseIsoDate_valid hlast
  have hfreq : freqOf (avgGapDays (recSortedDates (recGroup (debitsOf data) k))) =
      Frequency.monthly := by
    rw [hgap]
    simp [freqOf, h10, h45]
  have hstep : stepFreq Frequency.monthly lp = jsAddMonths lp 1 := rfl
  have hnext : advancePastToday Frequency.monthly today
      (renewalFuel today (jsAddMonths lp 1)) (jsAddMonths lp 1) = jsAddMonths lp 1 :=
    advancePastToday_id _ _ _ _ htoday
  have hmonth := jsAddMonths_one_of_le28 lp hm1 hm12 hday
  have hf : recPaymentFor today (debitsOf data) k = some
      { id := k,
        merchant := capFirst k,
        type := recTypeOf k,
        amount := meanQ ((recGroup (debitsOf data) k).map Transaction.amount),
        frequency := Frequency.monthly,
        lastPaymentDate := ((recSortedDates (recGroup (debitsOf data) k)).getLast?).getD "",
        nextRenewalDate := (jsAddMonths lp 1).toIso,
        daysUntilRenewal := daysFromCivil (jsAddMonths lp 1) - daysFromCivil today,
        occurrences := (recGroup (debitsOf data) k).length,
        yearlyTotal := meanQ ((recGroup (debitsOf data) k).map Transaction.amount) *
          yearlyMultOf Frequency.monthly,
        category := match (recGroup (debitsOf data) k).head? with
          | some t => t.category
          | none => "" } := by
    simp only [recPaymentFor]
    rw [if_neg (by omega), if_neg (by simp [hcons]), hfreq, hlast]
    simp only [hstep, hnext]
  have hkmem : k ∈ firstKeys ((debitsOf data).map recKey) := by
    rw [mem_firstKeys]
    obtain ⟨t, ht⟩ := List.exists_mem_of_ne_nil (recGroup (debitsOf data) k)
      (by intro h0; rw [h0] at hg2; simp at hg2)
    simp only [recGroup] at ht
    have htf := List.mem_filter.mp ht
    exact List.mem_map.mpr ⟨t, htf.1, by simpa using htf.2⟩
  have hperm : List.Perm (recurringPaymentsOf today data)
      ((firstKeys ((debitsOf data).map recKey)).filterMap
        (recPaymentFor today (debitsOf data))) := by
    simp only [recurringPaymentsOf, sortBy]
    exact List.perm_insertionSort _ _
  have hpmem : _ ∈ (firstKeys ((debitsOf data).map recKey)).filterMap
      (recPaymentFor today (debitsOf data)) :=
    List.mem_filterMap.mpr ⟨k, hkmem, hf⟩
  refine ⟨_, hperm.mem_iff.mpr hpmem, rfl, rfl, ?_, ?_⟩
  · show (jsAddMonths lp 1).toIso = _
    rw [hmonth]
  · intro p' hp' hid
    obtain ⟨k', hk', hfk'⟩ := List.mem_filterMap.mp (hperm.mem_iff.mp hp')
    have : k' = k := by rw [← recPaymentFor_id hfk', hid]
    subst this
    rw [hf] at hfk'
    cases hfk'
    rfl

def c2wt1 : Transaction :=
  { id := "w1", date := "2025-12-15", merchant := "Netflix", amount := 500,
    category := "Entertainment" }

def c2wt2 : Transaction :=
  { id := "w2", date := "2026-01-15", merchant := "Netflix", amount := 500,
    category := "Entertainment" }

def c2wdata : List Transaction := [c2wt1, c2wt2]

def c2wtoday : CivilDate := ⟨2026, 1, 20⟩

theorem c2w_group_eval :
    recGroup (debitsOf c2wdata) (recKey c2wt1) = [c2wt1, c2wt2] := by
  have h1 : (0 : ℚ) < 500 := by norm_num
  simp [recGroup, debitsOf, c2wdata, c2wt1, c2wt2, List.filter, recKey, h1]

theorem c2w_sorted_eval :
    recSortedDates [c2wt1, c2wt2] = ["2025-12-15", "2026-01-15"] := by
  decide

theorem c2w_gap_eval :
    avgGapDays (recSortedDates (recGroup (debitsOf c2wdata) (recKey c2wt1))) =
      some 31 := by
  rw [c2w_group_eval, c2w_sorted_eval]
  have h2 : (["2025-12-15", "2026-01-15"] : List String).mapM jsEpochDays =
      some [daysFromCivil ⟨2025, 12, 15⟩, daysFromCivil ⟨2026, 1, 15⟩] := by decide
  have h3 : gapSumDays [daysFromCivil ⟨2025, 12, 15⟩, daysFromCivil ⟨2026, 1, 15⟩] =
      31 := by decide
  simp only [avgGapDays, h2, h3]
  norm_num

/-- Witness for C2: a merchant paid 500 on 2025-12-15 and 2026-01-15 (gap 31
days) is classified monthly with next renewal 2026-02-15, inside February,
the month following the last payment. -/
theorem claim_C2_monthly_recurrence_witness :
    2 ≤ (recGroup (debitsOf c2wdata) (recKey c2wt1)).length ∧
    recConsistent (recGroup (debitsOf c2wdata) (recKey c2wt1)) = true ∧
    ∃ p ∈ recurringPaymentsOf c2wtoday c2wdata,
      p.id = recKey c2wt1 ∧ p.frequency = Frequency.monthly ∧
      p.nextRenewalDate = CivilDate.toIso ⟨2026, 2, 15⟩ := by
  have hg2 : 2 ≤ (recGroup (debitsOf c2wdata) (recKey c2wt1)).length := by
    rw [c2w_group_eval]; decide
  have hcons : recConsistent (recGroup (debitsOf c2wdata) (recKey c2wt1)) = true := by
    rw [c2w_group_eval]
    have hm : meanQ [(500 : ℚ), 500] = 500 := by
      simp [meanQ]
      try norm_num
    norm_num [recConsistent, c2wt1, c2wt2, hm]
  have hlast : parseIsoDate
      (((recSortedDates (recGroup (debitsOf c2wdata) (recKey c2wt1))).getLast?).getD "")
      = some ⟨2026, 1, 15⟩ := by
    rw [c2w_group_eval, c2w_sorted_eval]; decide
  have h10 : ¬ (31 : ℚ) ≤ 10 := by norm_num
  have h45 : (31 : ℚ) ≤ 45 := by norm_num
  have hday : (⟨2026, 1, 15⟩ : CivilDate).d ≤ 28 := by decide
  have htoday : cdLt (jsAddMonths ⟨2026, 1, 15⟩ 1) c2wtoday = false := by decide
  obtain ⟨p, hp, hid, hfreq, hren, -⟩ :=
    claim_C2_monthly_recurrence c2wtoday c2wdata (recKey c2wt1) 31 ⟨2026, 1, 15⟩
      hg2 hcons c2w_gap_eval h10 h45 hlast hday htoday
  refine ⟨hg2, hcons, p, hp, hid, hfreq, ?_⟩
  rw [hren]
  rfl

def c2t1 : Transaction :=
  { id := "c1", date := "2025-12-31", merchant := "Netflix", amount := 500,
    category := "Entertainment" }

def c2t2 : Transaction :=
  { id := "c2", date := "2026-01-31", merchant := "Netflix", amount := 500,
    category := "Entertainment" }

def c2data : List Transaction := [c2t1, c2t2]

def c2today : CivilDate := ⟨2026, 2, 10⟩

theorem c2_group_eval :
    recGroup (debitsOf c2data) (recKey c2t1) = [c2t1, c2t2] := by
  have h1 : (0 : ℚ) < 500 := by norm_num
  simp [recGroup, debitsOf, c2data, c2t1, c2t2, List.filter, recKey, h1]

theorem c2_sorted_eval :
    recSortedDates [c2t1, c2t2] = ["2025-12-31", "2026-01-31"] := by
  decide

theorem c2_gap_eval :
    avgGapDays (recSortedDates (recGroup (debitsOf c2data) (recKey c2t1))) =
      some 31 := by
  rw [c2_group_eval, c2_sorted_eval]
  have h2 : (["2025-12-31", "2026-01-31"] : List String).mapM jsEpochDays =
      some [daysFromCivil ⟨2025, 12, 31⟩, daysFromCivil ⟨2026, 1, 31⟩] := by decide
  have h3 : gapSumDays [daysFromCivil ⟨2025, 12, 31⟩, daysFromCivil ⟨2026, 1, 31⟩] =
      31 := by decide
  simp only [avgGapDays, h2, h3]
  norm_num

/-- Counterexample to C2 as stated: a merchant paid monthly on 2025-12-31 and
2026-01-31 (gap 31 days, amounts identical) is classified monthly, but the
projected next renewal is 2026-03-03 — in March, not in February, the month
following the last payment — because JS `setMonth` normalises the
nonexistent Feb 31 forward. -/
theorem claim_C2_counterexample :
    ∃ p ∈ recurringPaymentsOf c2today c2data,
      p.id = recKey c2t1 ∧ p.frequency = Frequency.monthly ∧
      p.lastPaymentDate = "2026-01-31" ∧
      p.nextRenewalDate = "2026-03-03" ∧
      monthSucc 2025 12 = (2026, 1) ∧ monthSucc 2026 1 = (2026, 2) ∧
      (parseIsoDate "2026-03-03").map CivilDate.m = some 3 ∧ (3 : ℕ) ≠ 2 := by
  have hfreq : freqOf (avgGapDays (recSortedDates (recGroup (debitsOf c2data)
      (recKey c2t1)))) = Frequency.monthly := by
    rw [c2_gap_eval]
    simp [freqOf]
    norm_num
  have hlast : parseIsoDate
      (((recSortedDates (recGroup (debitsOf c2data) (recKey c2t1))).getLast?).getD "")
      = some ⟨2026, 1, 31⟩ := by
    rw [c2_group_eval, c2_sorted_eval]; decide
  have hcons : recConsistent (recGroup (debitsOf c2data) (recKey c2t1)) = true := by
    rw [c2_group_eval]
    have hm : meanQ [(500 : ℚ), 500] = 500 := by
      simp [meanQ]
      try norm_num
    norm_num [recConsistent, c2t1, c2t2, hm]
  have hg2 : 2 ≤ (recGroup (debitsOf c2data) (recKey c2t1)).length := by
    rw [c2_group_eval]; decide
  have hstep : jsAddMonths ⟨2026, 1, 31⟩ 1 = ⟨2026, 3, 3⟩ := by decide
  have hadv : advancePastToday Frequency.monthly c2today
      (renewalFuel c2today (⟨2026, 3, 3⟩ : CivilDate)) ⟨2026, 3, 3⟩ =
      ⟨2026, 3, 3⟩ := by
    apply advancePastToday_id
    decide
  have hf : recPaymentFor c2today (debitsOf c2data) (recKey c2t1) = some
      { id := recKey c2t1,
        merchant := capFirst (recKey c2t1),
        type := recTypeOf (recKey c2t1),
        amount := meanQ ((recGroup (debitsOf c2data) (recKey c2t1)).map Transaction.amount),
        frequency := Frequency.monthly,
        lastPaymentDate := ((recSortedDates (recGroup (debitsOf c2data)
          (recKey c2t1))).getLast?).getD "",
        nextRenewalDate := (⟨2026, 3, 3⟩ : CivilDate).toIso,
        daysUntilRenewal := daysFromCivil ⟨2026, 3, 3⟩ - daysFromCivil c2today,
        occurrences := (recGroup (debitsOf c2data) (recKey c2t1)).length,
        yearlyTotal := meanQ ((recGroup (debitsOf c2data) (recKey c2t1)).map
          Transaction.amount) * yearlyMultOf Frequency.monthly,
        category := match (recGroup (debitsOf c2data) (recKey c2t1)).head? with
          | some t => t.category
          | none => "" } := by
    simp only [recPaymentFor]
    rw [if_neg (by omega), if_neg (by simp [hcons]), hfreq, hlast]
    simp only [stepFreq, hstep, hadv]
  have hkmem : recKey c2t1 ∈ firstKeys ((debitsOf c2data).map recKey) := by
    rw [mem_firstKeys]
    apply List.mem_map.mpr
    refine ⟨c2t1, ?_, rfl⟩
    have h1 : (0 : ℚ) < 500 := by norm_num
    simp [debitsOf, c2data, c2t1, h1]
  have hperm : List.Perm (recurringPaymentsOf c2today c2data)
      ((firstKeys ((debitsOf c2data).map recKey)).filterMap
        (recPaymentFor c2today (debitsOf c2data))) := by
    simp only [recurringPaymentsOf, sortBy]
    exact List.perm_insertionSort _ _
  refine ⟨_, hperm.mem_iff.mpr (List.mem_filterMap.mpr ⟨recKey c2t1, hkmem, hf⟩),
    rfl, rfl, ?_, ?_, by decide, by decide, by decide, by decide⟩
  · show ((recSortedDates (recGroup (debitsOf c2data) (recKey c2t1))).getLast?).getD ""
      = "2026-01-31"
    rw [c2_group_eval, c2_sorted_eval]
    rfl
  · show (⟨2026, 3, 3⟩ : CivilDate).toIso = "2026-03-03"
    decide

def c3mk (i : String) (q : ℚ) : Transaction :=
  { id := i, date := "2026-01-05", merchant := "M" ++ i, amount := q,
    category := "Misc" }

/-- The spec's example amounts `[100, 100, 100, 100, 1000]`. -/
def c3data : List Transaction :=
  [c3mk "1" 100, c3mk "2" 100, c3mk "3" 100, c3mk "4" 100, c3mk "5" 1000]

/-- One more 100 entry, for which 1000 does exceed `mean + 2σ`. -/
def c3data6 : List Transaction :=
  [c3mk "1" 100, c3mk "2" 100, c3mk "3" 100, c3mk "4" 100, c3mk "5" 100,
   c3mk "6" 1000]

theorem c3_debits_eval : debitsOf c3data = c3data := by
  norm_num [debitsOf, c3data, c3mk, List.filter]

theorem c3_mean_eval : meanQ (c3data.map Transaction.amount) = 280 := by
  norm_num [meanQ, c3data, c3mk]

theorem c3_var_eval : varQ (c3data.map Transaction.amount) = 129600 := by
  norm_num [varQ, c3mk, c3data, c3_mean_eval, meanQ]

/-- Counterexample to C3 as stated: on `[100,100,100,100,1000]` the mean is
280 and the population standard deviation is exactly 360, so the threshold
`mean + 2σ` is exactly 1000; the strict `>` comparison therefore flags
nothing — not the 1000 entry. -/
theorem claim_C3_counterexample :
    c3data.map Transaction.amount = [100, 100, 100, 100, 1000] ∧
    meanQ (c3data.map Transaction.amount) + 2 * 360 = 1000 ∧
    (360 : ℚ) ^ 2 = varQ (c3data.map Transaction.amount) ∧
    outliersOf (debitsOf c3data) = [] ∧
    highValueTxOf (debitsOf c3data) = [] := by
  refine ⟨by norm_num [c3data, c3mk], ?_, ?_, ?_, ?_⟩
  · rw [c3_mean_eval]; norm_num
  · rw [c3_var_eval]; norm_num
  · rw [c3_debits_eval]
    simp only [outliersOf, c3_mean_eval, c3_var_eval]
    norm_num [c3data, c3mk, List.filter, exceeds2SigmaB]
  · rw [c3_debits_eval]
    simp only [highValueTxOf, c3_mean_eval, c3_var_eval]
    norm_num [c3data, c3mk, List.filter, exceeds2SigmaB]

theorem c3six_debits_eval : debitsOf c3data6 = c3data6 := by
  norm_num [debitsOf, c3data6, c3mk, List.filter]

theorem c3six_mean_eval : meanQ (c3data6.map Transaction.amount) = 250 := by
  norm_num [meanQ, c3data6, c3mk]

theorem c3six_var_eval : varQ (c3data6.map Transaction.amount) = 112500 := by
  norm_num [varQ, c3mk, c3data6, c3six_mean_eval, meanQ]

/-- Claim C3 (amended): the detector flags exactly the entries strictly above
`mean + 2σ`.  On the spec's `[100,100,100,100,1000]` the threshold equals
1000 exactly, so nothing is flagged; adding a fifth 100 —
`[100,100,100,100,100,1000]` — makes exactly the 1000 entry flagged, and
nothing else. -/
theorem claim_C3_outlier_strict :
    outliersOf (debitsOf c3data) = [] ∧
    highValueTxOf (debitsOf c3data) = [] ∧
    outliersOf (debitsOf c3data6) = [c3mk "6" 1000] := by
  refine ⟨?_, ?_, ?_⟩
  · rw [c3_debits_eval]
    simp only [outliersOf, c3_mean_eval, c3_var_eval]
    norm_num [c3data, c3mk, List.filter, exceeds2SigmaB]
  · rw [c3_debits_eval]
    simp only [highValueTxOf, c3_mean_eval, c3_var_eval]
    norm_num [c3data, c3mk, List.filter, exceeds2SigmaB]
  rw [c3six_debits_eval]
  simp only [outliersOf, c3six_mean_eval, c3six_var_eval]
  norm_num [c3data6, c3mk, List.filter, exceeds2SigmaB]

/-- Claim C5: for every non-empty transaction list, the generated CSV is the
header line plus one generated row per transaction, and parsing any of those
rows under standard CSV rules (comma-separated, double-quoted fields with
inner quotes doubled) recovers the date, merchant and category strings
exactly — embedded commas and quotes included — and an amount field that
denotes the amount rounded to two decimals. -/
theorem claim_C5_csv_roundtrip (data : List Transaction) (_hne : data ≠ [])
    (t : Transaction) (_ht : t ∈ data) :
    csvContent data = String.intercalate "\n" (csvHeader :: data.map csvRow) ∧
    csvParseRecord (csvRow t) =
      some [t.date, t.merchant, toFixed2 t.amount, t.category,
            if t.isRecurring then "Yes" else "No"] ∧
    parseFix2 (toFixed2 t.amount).data = some (round2 t.amount) :=
  ⟨rfl, csvParseRecord_csvRow t, parseFix2_toFixed2 t.amount⟩

def c5t : Transaction :=
  { id := "x", date := "2026-01-07", merchant := "Acme, \"Intl\" Store",
    amount := 1234, category := "Food, \"fast\"", isRecurring := true }

/-- Witness for C5 at a transaction whose merchant and category contain
embedded commas and double quotes. -/
theorem claim_C5_csv_roundtrip_witness :
    ([c5t] ≠ ([] : List Transaction)) ∧
    csvParseRecord (csvRow c5t) =
      some [c5t.date, c5t.merchant, toFixed2 c5t.amount, c5t.category, "Yes"] ∧
    parseFix2 (toFixed2 c5t.amount).data = some (round2 c5t.amount) := by
  obtain ⟨-, hrec, hfix⟩ :=
    claim_C5_csv_roundtrip [c5t] (by simp) c5t (by simp)
  refine ⟨by simp, ?_, hfix⟩
  rw [hrec]
  rfl

/-- Claim C7 (amended: this is the behaviour of the frontend parsing
service; the legacy `src/services` version differs, see the counterexample):
a non-array body fails with the 'Invalid response format' error; an array
body yields exactly the valid records — amount parses to a number, and date
or merchant is (truthily) present — in order, with missing merchant and
category defaulting to 'Unknown' and 'Uncategorized'. -/
theorem claim_C7_defensive_parsing (todayIso now : String) :
    parseStatementBody todayIso now ResponseBody.nonArray =
      Except.error "Invalid response format: expected an array" ∧
    (∀ items, parseStatementBody todayIso now (ResponseBody.arr items) =
      Except.ok (mapWithIdx (mkTx todayIso now) 0 (keptRecords items))) ∧
    (∀ items r, r ∈ keptRecords items → validRecord r = true ∧ some r ∈ items) ∧
    (∀ (i : ℕ) (r : RawRecord), jsTruthy r.merchant = false →
      (mkTx todayIso now i r).merchant = "Unknown") ∧
    (∀ (i : ℕ) (r : RawRecord), jsTruthy r.category = false →
      (mkTx todayIso now i r).category = "Uncategorized") := by
  refine ⟨rfl, fun items => rfl, ?_, ?_, ?_⟩
  · intro items r hr
    obtain ⟨o, ho, hor⟩ := List.mem_filterMap.mp hr
    cases o with
    | none => cases hor
    | some r' =>
      rw [Option.some_bind] at hor
      split at hor
      · next hvalid =>
        cases hor
        exact ⟨hvalid, ho⟩
      · cases hor
  · intro i r h
    cases hm : r.merchant with
    | none => simp [mkTx, hm]
    | some s =>
      rw [hm] at h
      have hs : s = "" := by simpa [jsTruthy] using h
      simp [mkTx, hm, hs]
  · intro i r h
    cases hm : r.category with
    | none => simp [mkTx, hm]
    | some s =>
      rw [hm] at h
      have hs : s = "" := by simpa [jsTruthy] using h
      simp [mkTx, hm, hs]

def c7rawGood : RawRecord :=
  { date := some "2026-01-05", merchant := none, amount := some (some 42),
    category := some "" }

def c7rawBad : RawRecord :=
  { date := some "2026-01-06", merchant := some "Shop", amount := some none }

/-- Witness for C7: a null item and a NaN-amount record are dropped; the
kept record gets 'Unknown'/'Uncategorized' defaults. -/
theorem claim_C7_defensive_parsing_witness :
    parseStatementBody "T" "0" ResponseBody.nonArray =
      Except.error "Invalid response format: expected an array" ∧
    keptRecords [none, some c7rawGood, some c7rawBad] = [c7rawGood] ∧
    validRecord c7rawGood = true ∧
    jsTruthy c7rawGood.merchant = false ∧
    (mkTx "T" "0" 0 c7rawGood).merchant = "Unknown" ∧
    (mkTx "T" "0" 0 c7rawGood).category = "Uncategorized" := by
  obtain ⟨hna, -, hkept, hunk, huncat⟩ := claim_C7_defensive_parsing "T" "0"
  have hmem : c7rawGood ∈ keptRecords [none, some c7rawGood, some c7rawBad] := by
    decide
  refine ⟨hna, by decide, (hkept _ _ hmem).1, by decide, ?_, ?_⟩
  · exact hunk 0 c7rawGood (by decide)
  · exact huncat 0 c7rawGood (by decide)

/-- Counterexample to C7 as stated over both cited `parseStatementFile`
versions: the legacy service (src/services/parsingService.ts) returns an
empty success result for a non-array body instead of failing with the
'Invalid response format' error, and it maps records through without any
validity filtering (here: a record with `amount` absent / NaN). -/
theorem claim_C7_counterexample :
    legacyParseBody "0" ResponseBody.nonArray = Except.ok [] ∧
    (∀ e, legacyParseBody "0" ResponseBody.nonArray ≠ Except.error e) ∧
    validRecord c7rawBad = false ∧
    legacyParseBody "0" (ResponseBody.arr [some c7rawBad]) =
      Except.ok [legacyMkTx "0" 0 c7rawBad] := by
  refine ⟨rfl, ?_, by decide, by rfl⟩
  intro e h
  cases h

end CardAnalyzer
